import Mathlib

/-!
# Shallow embedding of the time-shaper feature-extraction engine

This file embeds, in Lean 4, the numeric core of the media
feature-extraction engine: the AudioWorklet processor
(`TimeShaperProcessor`, file `audio/time-shaper-processor.js`), the
`AudioEngine` service and the `VideoEngine` service, together with a small
transition-system model of their single-flight processing queues.

Modelling conventions:
* JavaScript floating-point numbers are modelled as exact rationals `ℚ`
  wherever the source only performs field arithmetic and comparisons, and
  as real numbers `ℝ` where the source calls `Math.sqrt`, `Math.cos`,
  `Math.sin` (these functions are transcendental, hence the corresponding
  definitions are `noncomputable`).
* `Math.round` is round-half-up: `jsRound x = ⌊x + 1/2⌋`.
* JavaScript `Map` iteration order is insertion order; histograms are
  modelled as the list of keys in first-occurrence order plus a count
  function.
* `Uint8ClampedArray` pixel data is a `List ℕ` of byte values; theorems
  that need byte bounds carry an explicit `≤ 255` hypothesis.
-/

/-- JS `Math.round`: rounds half toward positive infinity. -/
def jsRound (x : ℚ) : ℤ := ⌊x + 1/2⌋

namespace AudioEngine

/-- Result record of `AudioEngine.estimateTempo`. -/
structure TempoResult where
  bpm : ℤ
  confidence : ℚ
deriving DecidableEq

/-- Inter-onset intervals: `intervals[i] = onsets[i+1] - onsets[i]`
(the `for (let i = 1; ...)` loop in `estimateTempo`). -/
def interOnsetIntervals (onsets : List ℚ) : List ℚ :=
  List.zipWith (fun b a => b - a) onsets.tail onsets

/-- The `Math.round(interval / resolution) * resolution` with
`resolution = 0.01` (the 10 ms histogram bucket of `estimateTempo`). -/
def bucketOf (iv : ℚ) : ℚ := (jsRound (iv / (1/100)) : ℚ) * (1/100)

/-- Keys of a JS `Map` built by repeated insertion: first-occurrence
order, no duplicates. -/
def histKeys (bs : List ℚ) : List ℚ :=
  bs.foldl (fun acc k => if k ∈ acc then acc else acc ++ [k]) []

/-- The `histogram.forEach` peak scan of `estimateTempo`: walk the
buckets in insertion order keeping `(maxCount, bestInterval)`, starting
from `(0, 0.5)`; a bucket wins when its count strictly exceeds the
current max and the bucket value lies strictly between 0.2 s and 2.0 s. -/
def peakScan (bs : List ℚ) : ℕ × ℚ :=
  (histKeys bs).foldl
    (fun acc k =>
      if bs.count k > acc.1 ∧ 1/5 < k ∧ k < 2 then (bs.count k, k) else acc)
    (0, 1/2)

/-- The `AudioEngine.estimateTempo`: fewer than 4 onsets short-circuits to
`{bpm: 120, confidence: 0}`; otherwise bucket the inter-onset intervals,
pick the histogram peak, and return
`{bpm: round(60/bestInterval), confidence: maxCount/intervals.length}`. -/
def estimateTempo (onsets : List ℚ) : TempoResult :=
  if onsets.length < 4 then ⟨120, 0⟩
  else
    let intervals := interOnsetIntervals onsets
    let buckets := intervals.map bucketOf
    let peak := peakScan buckets
    ⟨jsRound (60 / peak.2), (peak.1 : ℚ) / intervals.length⟩

lemma mem_histKeys_aux {k : ℚ} :
    ∀ (bs acc : List ℚ),
      k ∈ bs.foldl (fun acc k => if k ∈ acc then acc else acc ++ [k]) acc →
      k ∈ acc ∨ k ∈ bs := by
  intro bs
  induction bs with
  | nil => intro acc h; exact Or.inl h
  | cons b bs ih =>
      intro acc h
      simp only [List.foldl_cons] at h
      rcases ih _ h with h' | h'
      · by_cases hb : b ∈ acc
        · rw [if_pos hb] at h'; exact Or.inl h'
        · rw [if_neg hb] at h'
          rcases List.mem_append.mp h' with h'' | h''
          · exact Or.inl h''
          · simp at h''; subst h''; exact Or.inr (List.mem_cons_self _ _)
      · exact Or.inr (List.mem_cons_of_mem _ h')

lemma mem_histKeys {k : ℚ} {bs : List ℚ} (h : k ∈ histKeys bs) : k ∈ bs := by
  rcases mem_histKeys_aux bs [] h with h' | h'
  · simp at h'
  · exact h'

/-- Invariant satisfied by the peak-scan accumulator over buckets. -/
def PeakInv (bs : List ℚ) (acc : ℕ × ℚ) : Prop :=
  acc.1 ≤ bs.length ∧
    (acc.2 = 1/2 ∨ ∃ m : ℤ, acc.2 = (m : ℚ) / 100 ∧ 21 ≤ m ∧ m ≤ 199)

lemma bucketOf_form (iv : ℚ) : ∃ m : ℤ, bucketOf iv = (m : ℚ) / 100 := by
  refine ⟨jsRound (iv / (1/100)), ?_⟩
  unfold bucketOf
  ring

lemma peakScan_inv (intervals : List ℚ) :
    PeakInv (intervals.map bucketOf) (peakScan (intervals.map bucketOf)) := by
  set bs := intervals.map bucketOf with hbs
  have hform : ∀ k ∈ bs, ∃ m : ℤ, k = (m : ℚ) / 100 := by
    intro k hk
    rw [hbs] at hk
    rcases List.mem_map.mp hk with ⟨iv, _, rfl⟩
    exact bucketOf_form iv
  have step : ∀ (keys : List ℚ) (acc : ℕ × ℚ),
      (∀ k ∈ keys, k ∈ bs) → PeakInv bs acc →
      PeakInv bs (keys.foldl
        (fun acc k =>
          if bs.count k > acc.1 ∧ 1/5 < k ∧ k < 2 then (bs.count k, k) else acc)
        acc) := by
    intro keys
    induction keys with
    | nil => intro acc _ hacc; exact hacc
    | cons k keys ih =>
        intro acc hmem hacc
        simp only [List.foldl_cons]
        apply ih _ (fun k' hk' => hmem k' (List.mem_cons_of_mem _ hk'))
        by_cases hc : bs.count k > acc.1 ∧ 1/5 < k ∧ k < 2
        · rw [if_pos hc]
          constructor
          · exact List.count_le_length _ _
          · right
            rcases hform k (hmem k (List.mem_cons_self _ _)) with ⟨m, hm⟩
            refine ⟨m, hm, ?_, ?_⟩
            · have h1 : (1:ℚ)/5 < (m : ℚ) / 100 := hm ▸ hc.2.1
              have h1' : (20 : ℚ) < (m : ℚ) := by
                rw [div_lt_div_iff₀ (by norm_num) (by norm_num)] at h1
                linarith
              have : (20 : ℤ) < m := by exact_mod_cast h1'
              omega
            · have h2 : (m : ℚ) / 100 < 2 := hm ▸ hc.2.2
              have h2' : (m : ℚ) < 200 := by
                rw [div_lt_iff₀ (by norm_num)] at h2
                linarith
              have : m < 200 := by exact_mod_cast h2'
              omega
        · rw [if_neg hc]; exact hacc
  have := step (histKeys bs) (0, 1/2)
    (fun k hk => mem_histKeys hk) ⟨Nat.zero_le _, Or.inl rfl⟩
  exact this

lemma jsRound_bpm_bounds {m : ℤ} (h1 : 21 ≤ m) (h2 : m ≤ 199) :
    30 ≤ jsRound (60 / ((m : ℚ) / 100)) ∧
      jsRound (60 / ((m : ℚ) / 100)) ≤ 300 := by
  have hm0 : (0 : ℚ) < (m : ℚ) := by exact_mod_cast by omega
  have hmq : 60 / ((m : ℚ) / 100) = 6000 / (m : ℚ) := by
    field_simp
    ring
  have hub : (6000 : ℚ) / (m : ℚ) ≤ 6000 / 21 := by
    apply div_le_div_of_nonneg_left (by norm_num) (by norm_num)
    exact_mod_cast h1
  have hlb : (6000 : ℚ) / 199 ≤ 6000 / (m : ℚ) := by
    apply div_le_div_of_nonneg_left (by norm_num) hm0
    exact_mod_cast h2
  constructor
  · rw [jsRound, hmq]
    rw [Int.le_floor]
    push_cast
    linarith [hlb]
  · rw [jsRound, hmq]
    have : ⌊(6000 / (m : ℚ) + 1/2)⌋ < 301 := by
      rw [Int.floor_lt]
      push_cast
      linarith [hub]
    omega

/-- Claim C4: fewer than 4 onsets short-circuits to bpm 120, confidence 0. -/
theorem estimateTempo_lt4 {onsets : List ℚ} (h : onsets.length < 4) :
    estimateTempo onsets = ⟨120, 0⟩ := by
  unfold estimateTempo
  rw [if_pos h]

theorem estimateTempo_lt4_out : ([] : List ℚ).length < 4 ∧
    estimateTempo [] = ⟨120, 0⟩ :=
  ⟨by decide, estimateTempo_lt4 (by decide)⟩

/-- Claim C5: the estimated tempo always satisfies `30 ≤ bpm ≤ 300` and
`0 ≤ confidence ≤ 1`, for every list of onset times. -/
theorem estimateTempo_range (onsets : List ℚ) :
    30 ≤ (estimateTempo onsets).bpm ∧ (estimateTempo onsets).bpm ≤ 300 ∧
      0 ≤ (estimateTempo onsets).confidence ∧
      (estimateTempo onsets).confidence ≤ 1 := by
  unfold estimateTempo
  by_cases h : onsets.length < 4
  · rw [if_pos h]
    refine ⟨by norm_num, by norm_num, le_refl _, by norm_num⟩
  · rw [if_neg h]
    simp only
    have hlen : 3 ≤ (interOnsetIntervals onsets).length := by
      unfold interOnsetIntervals
      rw [List.length_zipWith, List.length_tail]
      omega
    have hinv := peakScan_inv (interOnsetIntervals onsets)
    set peak := peakScan ((interOnsetIntervals onsets).map bucketOf) with hpk
    obtain ⟨hcount, hval⟩ := hinv
    rw [List.length_map] at hcount
    have hbpm : 30 ≤ jsRound (60 / peak.2) ∧ jsRound (60 / peak.2) ≤ 300 := by
      rcases hval with h12 | ⟨m, hm, h21, h199⟩
      · rw [h12]
        have h120 : jsRound ((60 : ℚ) / (1/2)) = 120 := by
          unfold jsRound
          rw [Int.floor_eq_iff]
          norm_num
        rw [h120]
        norm_num
      · rw [hm]
        exact jsRound_bpm_bounds h21 h199
    refine ⟨hbpm.1, hbpm.2, ?_, ?_⟩
    · positivity
    · apply div_le_one_of_le
      · exact_mod_cast hcount
      · positivity

end AudioEngine

noncomputable section

namespace TimeShaperProcessor

/-- The inner correlation loop of
`TimeShaperProcessor.computeMagnitudeSpectrum`: starting from
`(real, imag) = (0, 0)`, accumulate `real += buffer[n] * cos(angle)` and
`imag += buffer[n] * sin(angle)` with `angle = -2πkn/N` over `n < N`. -/
def dftAccum (buffer : List ℝ) (k : ℕ) : ℝ × ℝ :=
  (List.range buffer.length).foldl
    (fun acc n =>
      (acc.1 + buffer.getD n 0 *
         Real.cos (-2 * Real.pi * k * n / buffer.length),
       acc.2 + buffer.getD n 0 *
         Real.sin (-2 * Real.pi * k * n / buffer.length)))
    (0, 0)

/-- The `TimeShaperProcessor.computeMagnitudeSpectrum`: for each of the first
`N/2` bins, `sqrt(real² + imag²)` of the direct cosine/sine correlation
of the buffer.  The buffer is used as-is: no window function is applied
before the correlation. -/
def computeMagnitudeSpectrum (buffer : List ℝ) : List ℝ :=
  (List.range (buffer.length / 2)).map fun k =>
    Real.sqrt ((dftAccum buffer k).1 ^ 2 + (dftAccum buffer k).2 ^ 2)

/-- The rectified-difference loop shared verbatim by
`TimeShaperProcessor.computeSpectralFlux` and
`AudioEngine.computeSpectralFlux`: walk the bins of `current`, adding
`current[i] - previous[i]` whenever that difference is positive. -/
def fluxLoop (current previous : List ℝ) : ℝ :=
  (List.range current.length).foldl
    (fun flux i =>
      if 0 < current.getD i 0 - previous.getD i 0 then
        flux + (current.getD i 0 - previous.getD i 0)
      else flux)
    0

/-- The `TimeShaperProcessor.computeSpectralFlux`, after the spectrum of the
buffer has been computed: with no previous spectrum, record the spectrum
and return 0; otherwise return the rectified sum divided by the bin count
and record the spectrum as the new previous reference. -/
def spectralFluxStep (prevSpectrum : Option (List ℝ)) (spectrum : List ℝ) :
    ℝ × Option (List ℝ) :=
  match prevSpectrum with
  | none => (0, some spectrum)
  | some prev => (fluxLoop spectrum prev / spectrum.length, some spectrum)

end TimeShaperProcessor

namespace AudioEngine

/-- The Hann factor `0.5 * (1 - cos(2πi/(N-1)))` applied in
`AudioEngine.computeSpectrum` (the denominator is the JS float `N - 1`,
so it is real subtraction, not truncated). -/
def hann (N : ℕ) (i : ℕ) : ℝ :=
  0.5 * (1 - Real.cos (2 * Real.pi * i / ((N : ℝ) - 1)))

/-- The `AudioEngine.computeSpectrum`: the window is copied into `real` and
the Hann factor is applied in place; `imag` is the zero-initialised
`Float32Array` and is never written; each of the first `N/2` bins is
`sqrt(real[i]² + imag[i]²)`.  No correlation sums are computed. -/
def computeSpectrum (window : List ℝ) : List ℝ :=
  let real : ℕ → ℝ := fun i => window.getD i 0 * hann window.length i
  let imag : ℕ → ℝ := fun _ => 0
  (List.range (window.length / 2)).map fun i =>
    Real.sqrt (real i ^ 2 + imag i ^ 2)

/-- The `AudioEngine.computeSpectralFlux(current, previous)`: rectified sum
over the bins of `current`, divided by the bin count. -/
def computeSpectralFlux (current previous : List ℝ) : ℝ :=
  TimeShaperProcessor.fluxLoop current previous / current.length

/-- The `AudioEngine.computeMFCC`: thirteen draws of `Math.random() - 0.5`;
the window argument is received but never read.  `Math.random` is
modelled as an ambient stream `rand` of draws subject to the JS contract
`0 ≤ rand i < 1`. -/
def computeMFCC (window : List ℚ) (rand : ℕ → ℚ) : List ℚ :=
  (List.range 13).map fun i => rand i - 1/2

end AudioEngine

/-- Modelled from the spec (§4.1, claim C1's reading): apply the Hann
window to the samples, then compute each of the first `N/2` bins as
`sqrt(real² + imag²)` where `real` and `imag` are direct summations of
the windowed samples against `cos`/`sin` of `-2πkn/N`. -/
def specHannDft (window : List ℝ) : List ℝ :=
  (List.range (window.length / 2)).map fun (k : ℕ) =>
    Real.sqrt
      ((∑ n ∈ Finset.range window.length,
          window.getD n 0 * AudioEngine.hann window.length n *
            Real.cos (-2 * Real.pi * k * n / window.length)) ^ 2 +
       (∑ n ∈ Finset.range window.length,
          window.getD n 0 * AudioEngine.hann window.length n *
            Real.sin (-2 * Real.pi * k * n / window.length)) ^ 2)

/-- The same direct DFT magnitude, but over the raw (unwindowed) samples:
what `TimeShaperProcessor.computeMagnitudeSpectrum` actually computes. -/
def specRawDft (buffer : List ℝ) : List ℝ :=
  (List.range (buffer.length / 2)).map fun (k : ℕ) =>
    Real.sqrt
      ((∑ n ∈ Finset.range buffer.length,
          buffer.getD n 0 * Real.cos (-2 * Real.pi * k * n / buffer.length)) ^ 2 +
       (∑ n ∈ Finset.range buffer.length,
          buffer.getD n 0 * Real.sin (-2 * Real.pi * k * n / buffer.length)) ^ 2)

/-- The mean of the positive-only (rectified) per-bin differences, the
spec's description of spectral flux. -/
def rectifiedMean (current previous : List ℝ) : ℝ :=
  (List.zipWith (fun c p => max (c - p) 0) current previous).sum /
    current.length

end

section FoldHelpers

lemma foldl_add_map (g : ℕ → ℝ) (a : ℝ) (l : List ℕ) :
    l.foldl (fun f i => f + g i) a = a + (l.map g).sum := by
  induction l generalizing a with
  | nil => simp
  | cons x xs ih => simp [ih, add_assoc]

lemma foldl_pair_add (f g : ℕ → ℝ) (a b : ℝ) (l : List ℕ) :
    l.foldl (fun acc n => (acc.1 + f n, acc.2 + g n)) (a, b)
      = (a + (l.map f).sum, b + (l.map g).sum) := by
  induction l generalizing a b with
  | nil => simp
  | cons x xs ih => simp [ih, add_assoc]

lemma sum_map_range (g : ℕ → ℝ) (n : ℕ) :
    ((List.range n).map g).sum = ∑ i ∈ Finset.range n, g i := by
  induction n with
  | zero => simp
  | succ m ih => simp [List.range_succ, Finset.sum_range_succ, ih]

end FoldHelpers

lemma dftAccum_eq (b : List ℝ) (k : ℕ) :
    TimeShaperProcessor.dftAccum b k =
      (∑ n ∈ Finset.range b.length,
         b.getD n 0 * Real.cos (-2 * Real.pi * k * n / b.length),
       ∑ n ∈ Finset.range b.length,
         b.getD n 0 * Real.sin (-2 * Real.pi * k * n / b.length)) := by
  unfold TimeShaperProcessor.dftAccum
  rw [foldl_pair_add]
  simp [sum_map_range]

/-- Claim C1 (amended): the worklet's `computeMagnitudeSpectrum` is the
direct cosine/sine correlation magnitude of the *raw* samples — no Hann
window is applied — while the engine's `computeSpectrum` applies the Hann
window but performs no correlation at all: its bin `i` is the absolute
value of the `i`-th Hann-windowed sample (the imaginary part is
identically zero). -/
theorem spectrum_amended (w : List ℝ) :
    TimeShaperProcessor.computeMagnitudeSpectrum w = specRawDft w ∧
    AudioEngine.computeSpectrum w =
      (List.range (w.length / 2)).map
        (fun i => |w.getD i 0 * AudioEngine.hann w.length i|) := by
  constructor
  · unfold TimeShaperProcessor.computeMagnitudeSpectrum specRawDft
    apply List.map_congr_left
    intro k _
    rw [dftAccum_eq]
  · unfold AudioEngine.computeSpectrum
    apply List.map_congr_left
    intro i _
    simp [Real.sqrt_sq_eq_abs]

lemma cos_two_pi_div_three : Real.cos (2 * Real.pi / 3) = -(1/2) := by
  rw [show (2 * Real.pi / 3 : ℝ) = Real.pi - Real.pi / 3 by ring,
    Real.cos_pi_sub, Real.cos_pi_div_three]

lemma hann_four_one : AudioEngine.hann 4 1 = 3/4 := by
  unfold AudioEngine.hann
  push_cast
  rw [show (2 * Real.pi * (1:ℝ) / ((4:ℝ) - 1)) = 2 * Real.pi / 3 by ring,
    cos_two_pi_div_three]
  norm_num

lemma worklet_bin0 :
    (TimeShaperProcessor.computeMagnitudeSpectrum [0, 1, 0, 0]).getD 0 0 = 1 := by
  unfold TimeShaperProcessor.computeMagnitudeSpectrum TimeShaperProcessor.dftAccum
  norm_num [List.range_succ]

lemma specHannDft_bin0 :
    (specHannDft [0, 1, 0, 0]).getD 0 0 = 3/4 := by
  have h9 : Real.sqrt 9 = 3 := by
    rw [show (9:ℝ) = 3^2 by norm_num, Real.sqrt_sq (by norm_num : (0:ℝ) ≤ 3)]
  have h16 : Real.sqrt 16 = 4 := by
    rw [show (16:ℝ) = 4^2 by norm_num, Real.sqrt_sq (by norm_num : (0:ℝ) ≤ 4)]
  unfold specHannDft
  norm_num [List.range_succ, Finset.sum_range_succ, hann_four_one, h9, h16]

lemma engine_bin0 :
    (AudioEngine.computeSpectrum [0, 1, 0, 0]).getD 0 0 = 0 := by
  unfold AudioEngine.computeSpectrum
  norm_num [List.range_succ]

/-- Claim C1 counterexample: at the window `[0, 1, 0, 0]` neither routine
returns the Hann-then-DFT spectrum the claim describes.  The Hann-DFT
bin 0 is `3/4`, but the worklet (which skips the Hann window) returns 1
there, and the engine (which applies Hann but computes no correlation
sums) returns 0 there. -/
theorem spectrum_claim_cex :
    TimeShaperProcessor.computeMagnitudeSpectrum [0, 1, 0, 0] ≠
        specHannDft [0, 1, 0, 0] ∧
      AudioEngine.computeSpectrum [0, 1, 0, 0] ≠ specHannDft [0, 1, 0, 0] := by
  constructor
  · intro h
    have h0 := congrArg (fun l => l.getD 0 0) h
    simp only at h0
    rw [worklet_bin0, specHannDft_bin0] at h0
    norm_num at h0
  · intro h
    have h0 := congrArg (fun l => l.getD 0 0) h
    simp only at h0
    rw [engine_bin0, specHannDft_bin0] at h0
    norm_num at h0

lemma if_pos_add_max (f d : ℝ) : (if 0 < d then f + d else f) = f + max d 0 := by
  by_cases h : 0 < d
  · rw [if_pos h, max_eq_left h.le]
  · rw [if_neg h, max_eq_right (not_lt.mp h), add_zero]

lemma map_range_getD_zipWith (c : List ℝ) :
    ∀ p : List ℝ, c.length = p.length →
      (List.range c.length).map (fun i => max (c.getD i 0 - p.getD i 0) 0)
        = List.zipWith (fun x y => max (x - y) 0) c p := by
  induction c with
  | nil => intro p _; simp
  | cons x xs ih =>
      intro p hlen
      cases p with
      | nil => simp at hlen
      | cons y ys =>
          simp only [List.length_cons, List.range_succ_eq_map, List.map_cons,
            List.map_map, List.zipWith_cons_cons]
          congr 1
          have := ih ys (by simpa using hlen)
          rw [← this]
          apply List.map_congr_left
          intro i _
          simp [Function.comp]

lemma fluxLoop_eq_zipWith (c p : List ℝ) (h : c.length = p.length) :
    TimeShaperProcessor.fluxLoop c p
      = (List.zipWith (fun x y => max (x - y) 0) c p).sum := by
  unfold TimeShaperProcessor.fluxLoop
  have hfun : (fun (flux : ℝ) (i : ℕ) =>
      if 0 < c.getD i 0 - p.getD i 0 then
        flux + (c.getD i 0 - p.getD i 0)
      else flux)
      = fun flux i => flux + max (c.getD i 0 - p.getD i 0) 0 := by
    funext flux i
    exact if_pos_add_max _ _
  rw [hfun, foldl_add_map, zero_add, map_range_getD_zipWith c p h]

/-- Claim C7: for equal-length spectra the rectified flux of both the
worklet's stateful `computeSpectralFlux` and the engine's two-argument
`computeSpectralFlux` equals the mean of the positive-only per-bin
differences; with no previous spectrum the worklet returns 0 and retains
the current spectrum as the new previous reference. -/
theorem spectralFlux_is_rectified_mean (c p : List ℝ)
    (h : c.length = p.length) :
    (TimeShaperProcessor.spectralFluxStep (some p) c).1 = rectifiedMean c p ∧
      (TimeShaperProcessor.spectralFluxStep (some p) c).2 = some c ∧
      AudioEngine.computeSpectralFlux c p = rectifiedMean c p ∧
      ∀ s : List ℝ, TimeShaperProcessor.spectralFluxStep none s = (0, some s) := by
  refine ⟨?_, rfl, ?_, fun s => rfl⟩
  · show TimeShaperProcessor.fluxLoop c p / (c.length : ℝ) = rectifiedMean c p
    rw [fluxLoop_eq_zipWith c p h, rectifiedMean]
  · show TimeShaperProcessor.fluxLoop c p / (c.length : ℝ) = rectifiedMean c p
    rw [fluxLoop_eq_zipWith c p h, rectifiedMean]

theorem spectralFlux_is_rectified_mean_out :
    ([(2:ℝ), 0]).length = ([(1:ℝ), 3]).length ∧
      ((TimeShaperProcessor.spectralFluxStep (some [(1:ℝ), 3]) [(2:ℝ), 0]).1
          = rectifiedMean [2, 0] [1, 3] ∧
        (TimeShaperProcessor.spectralFluxStep (some [(1:ℝ), 3]) [(2:ℝ), 0]).2
          = some [2, 0] ∧
        AudioEngine.computeSpectralFlux [2, 0] [1, 3]
          = rectifiedMean [2, 0] [1, 3] ∧
        ∀ s : List ℝ, TimeShaperProcessor.spectralFluxStep none s
          = (0, some s)) :=
  ⟨rfl, spectralFlux_is_rectified_mean [2, 0] [1, 3] rfl⟩

/-- Claim C10: `computeMFCC` returns exactly 13 values, each in
`[-0.5, 0.5)` under the `Math.random` contract, and its output is
independent of the audio window — a placeholder carrying no information
about the content. -/
theorem computeMFCC_placeholder (w w' : List ℚ) (rand : ℕ → ℚ)
    (hr : ∀ i, 0 ≤ rand i ∧ rand i < 1) :
    (AudioEngine.computeMFCC w rand).length = 13 ∧
      (∀ x ∈ AudioEngine.computeMFCC w rand, -(1/2) ≤ x ∧ x < 1/2) ∧
      AudioEngine.computeMFCC w rand = AudioEngine.computeMFCC w' rand := by
  refine ⟨by simp [AudioEngine.computeMFCC], ?_, rfl⟩
  intro x hx
  simp only [AudioEngine.computeMFCC, List.mem_map, List.mem_range] at hx
  obtain ⟨i, _, rfl⟩ := hx
  have hri := hr i
  constructor
  · linarith [hri.1]
  · linarith [hri.2]

theorem computeMFCC_placeholder_out :
    (∀ i, 0 ≤ (fun _ : ℕ => (0:ℚ)) i ∧ (fun _ : ℕ => (0:ℚ)) i < 1) ∧
      ((AudioEngine.computeMFCC [] (fun _ => 0)).length = 13 ∧
        (∀ x ∈ AudioEngine.computeMFCC [] (fun _ => 0),
          -(1/2) ≤ x ∧ x < 1/2) ∧
        AudioEngine.computeMFCC [] (fun _ => 0)
          = AudioEngine.computeMFCC [1] (fun _ => 0)) :=
  ⟨fun i => by norm_num,
    computeMFCC_placeholder [] [1] (fun _ => 0) (fun i => by norm_num)⟩

namespace Coordinator

/-- State of the per-engine processing queue shared verbatim by
`AudioEngine.processQueue` and `VideoEngine.processQueue`
(`processingQueue` array + `isProcessing` flag).  Requests are identified
by arrival number: `nextId` tags each `analyze()` call in order.
`running` lists the requests whose `performAnalysis` /
`performVideoAnalysis` is currently in flight, and `started` records, in
order, the requests whose analysis-started event has fired (that event is
emitted synchronously at the top of the per-request analysis).  Steps of
the model are atomic because the JS host runs continuations of one
instance on a single thread. -/
structure QState where
  queue : List ℕ
  isProcessing : Bool
  running : List ℕ
  started : List ℕ
  nextId : ℕ
deriving DecidableEq

/-- The `processQueue()`: return immediately when already processing or when
the queue is empty; otherwise shift the head request, raise the
single-flight flag and begin its analysis (firing analysis-started). -/
def processQueue (s : QState) : QState :=
  if s.isProcessing then s
  else
    match s.queue with
    | [] => s
    | r :: rest =>
        { s with
          queue := rest
          isProcessing := true
          running := s.running ++ [r]
          started := s.started ++ [r] }

/-- The `analyze()`: push the request onto the queue, then synchronously run
`processQueue()`. -/
def callStep (s : QState) : QState :=
  processQueue { s with queue := s.queue ++ [s.nextId], nextId := s.nextId + 1 }

/-- Completion (resolution or rejection) of the in-flight analysis `r`:
the `finally` block clears the single-flight flag and then runs
`processQueue()` again. -/
def finishStep (s : QState) (r : ℕ) : QState :=
  processQueue { s with isProcessing := false, running := s.running.erase r }

/-- The two event-loop transitions of one engine instance. -/
inductive Step : QState → QState → Prop
  | call (s : QState) : Step s (callStep s)
  | finish (s : QState) (r : ℕ) (h : r ∈ s.running) : Step s (finishStep s r)

/-- Initial state: empty queue, flag down, nothing running or started. -/
def init : QState := ⟨[], false, [], [], 0⟩

/-- States reachable from `init` by event-loop steps. -/
def Reachable (s : QState) : Prop := Relation.ReflTransGen Step init s

/-- Inductive invariant: started-then-pending requests are exactly the
arrival order, the single-flight flag tracks whether something is in
flight, and at most one request is in flight. -/
def Inv (s : QState) : Prop :=
  s.started ++ s.queue = List.range s.nextId ∧
    (s.isProcessing = true ↔ s.running ≠ []) ∧
    s.running.length ≤ 1

lemma inv_init : Inv init := by
  refine ⟨rfl, ?_, by decide⟩
  simp [init]

lemma inv_processQueue {s : QState} (h : Inv s) : Inv (processQueue s) := by
  obtain ⟨h1, h2, h3⟩ := h
  unfold processQueue
  by_cases hp : s.isProcessing = true
  · simp only [hp, if_true]
    exact ⟨h1, h2, h3⟩
  · have hp' : s.isProcessing = false := by
      cases hpv : s.isProcessing
      · rfl
      · exact absurd hpv hp
    have hrun : s.running = [] := by
      by_contra hne
      have := h2.mpr hne
      rw [hp'] at this
      exact Bool.false_ne_true this
    rw [hp']
    simp only [Bool.false_eq_true, if_false]
    cases hq : s.queue with
    | nil => exact ⟨h1, h2, h3⟩
    | cons r rest =>
        refine ⟨?_, ?_, ?_⟩
        · simp only
          rw [← h1, hq, List.append_assoc, List.singleton_append]
        · simp [hrun]
        · simp [hrun]

lemma inv_step {s t : QState} (hs : Inv s) (h : Step s t) : Inv t := by
  cases h with
  | call =>
      apply inv_processQueue
      obtain ⟨h1, h2, h3⟩ := hs
      refine ⟨?_, h2, h3⟩
      simp only
      rw [← List.append_assoc, h1, List.range_succ]
  | finish r hr =>
      apply inv_processQueue
      obtain ⟨h1, h2, h3⟩ := hs
      have hrun : s.running = [r] := by
        cases hl : s.running with
        | nil => rw [hl] at hr; simp at hr
        | cons a rest =>
            rw [hl] at h3 hr
            simp only [List.length_cons] at h3
            have hrest : rest = [] := by
              have hr0 : rest.length = 0 := by omega
              exact List.eq_nil_of_length_eq_zero hr0
            subst hrest
            simp only [List.mem_singleton] at hr
            subst hr
            rfl
      refine ⟨h1, ?_, ?_⟩
      · simp [hrun, List.erase_cons_head]
      · simp [hrun, List.erase_cons_head]

lemma inv_reachable {s : QState} (h : Reachable s) : Inv s := by
  induction h with
  | refl => exact inv_init
  | tail _ hstep ih => exact inv_step ih hstep

/-- Claim C3: in every reachable state of the single-flight queue model,
at most one request's whole-file analysis is in flight (so two
`analyze()` calls never run their sub-analysis sets in overlapping time
windows), and the analysis-started events observed so far are exactly
the arrival prefix 0, 1, 2, … — FIFO call order. -/
theorem queue_single_flight_fifo (s : QState) (h : Reachable s) :
    s.running.length ≤ 1 ∧ s.started = List.range s.started.length := by
  obtain ⟨h1, _, h3⟩ := inv_reachable h
  refine ⟨h3, ?_⟩
  have hlen : s.started.length ≤ s.nextId := by
    have := congrArg List.length h1
    simp only [List.length_append, List.length_range] at this
    omega
  have htake := congrArg (List.take s.started.length) h1
  rw [List.take_append_of_le_length (le_refl _), List.take_length,
    List.take_range, min_eq_left hlen] at htake
  exact htake

theorem queue_single_flight_fifo_out :
    Reachable (callStep (callStep init)) ∧
      ((callStep (callStep init)).running.length ≤ 1 ∧
        (callStep (callStep init)).started
          = List.range (callStep (callStep init)).started.length) := by
  have h : Reachable (callStep (callStep init)) :=
    Relation.ReflTransGen.tail
      (Relation.ReflTransGen.tail Relation.ReflTransGen.refl (Step.call init))
      (Step.call (callStep init))
  exact ⟨h, queue_single_flight_fifo _ h⟩

end Coordinator

noncomputable section

namespace TimeShaperProcessor

/-- The `computeRMS`: square-sum over the buffer, divided by its length,
under a square root. -/
def computeRMS (buffer : List ℚ) : ℝ :=
  Real.sqrt (((buffer.map (fun s => s * s)).sum / buffer.length : ℚ) : ℝ)

/-- The `computeZeroCrossingRate`: count of sign-boundary changes between
consecutive samples (a sample is "nonnegative" when `0 ≤ s`, matching
`buffer[i] >= 0`), divided by the buffer length. -/
def computeZeroCrossingRate (buffer : List ℚ) : ℚ :=
  ((List.zipWith
      (fun prev cur => if (decide (0 ≤ cur) ≠ decide (0 ≤ prev)) then (1:ℚ) else 0)
      buffer buffer.tail).sum) / buffer.length

/-- The `computeSpectralCentroid`: `Σ i·mag[i] / Σ mag[i]` over the magnitude
spectrum of the buffer, 0 when the denominator is not positive. -/
def computeSpectralCentroid (buffer : List ℚ) : ℝ :=
  let spectrum := computeMagnitudeSpectrum (buffer.map (fun q => (q : ℝ)))
  let numerator :=
    ((List.range spectrum.length).map
      (fun (i : ℕ) => (i : ℝ) * spectrum.getD i 0)).sum
  let denominator := spectrum.sum
  if 0 < denominator then numerator / denominator else 0

/-- The feature record posted once per buffer fill. -/
structure Features where
  rms : ℝ
  zcr : ℚ
  spectralCentroid : ℝ
  spectralFlux : ℝ

/-- The `extractFeatures`, with the flux tracker's previous spectrum made
explicit: returns the feature record and the updated previous
spectrum. -/
def extractFeatures (prev : Option (List ℝ)) (buffer : List ℚ) :
    Features × Option (List ℝ) :=
  let fl := spectralFluxStep prev
    (computeMagnitudeSpectrum (buffer.map (fun q => (q : ℝ))))
  (⟨computeRMS buffer, computeZeroCrossingRate buffer,
    computeSpectralCentroid buffer, fl.1⟩, fl.2)

/-- One message posted through the worklet port. -/
structure EmittedFrame where
  features : Features
  timestamp : ℚ

/-- Mutable state of the `TimeShaperProcessor` instance. -/
structure WState where
  bufferSize : ℕ
  buffer : List ℚ
  bufferIndex : ℕ
  frameCount : ℕ
  prevSpectrum : Option (List ℝ)
  emitted : List EmittedFrame
  sampleRate : ℚ

/-- The `analyzeBuffer()`: extract features from the full buffer and post a
frame stamped `frameCount * bufferSize / sampleRate`. -/
def analyzeBuffer (st : WState) : WState :=
  { st with
    prevSpectrum := (extractFeatures st.prevSpectrum st.buffer).2
    emitted := st.emitted ++
      [⟨(extractFeatures st.prevSpectrum st.buffer).1,
        (st.frameCount : ℚ) * st.bufferSize / st.sampleRate⟩] }

/-- One iteration of the `processAudioData` loop body: write the sample
at `bufferIndex`, advance the index, and on buffer fill run
`analyzeBuffer` and reset the index to 0. -/
def processSample (st : WState) (s : ℚ) : WState :=
  let st1 := { st with buffer := st.buffer.set st.bufferIndex s,
                       bufferIndex := st.bufferIndex + 1 }
  if st1.bufferSize ≤ st1.bufferIndex then
    { analyzeBuffer st1 with bufferIndex := 0 }
  else st1

/-- The `processAudioData(chunk)`: the per-sample loop, then `frameCount++`
(so `frameCount` counts incoming chunks, not buffer fills). -/
def processAudioData (st : WState) (chunk : List ℚ) : WState :=
  { chunk.foldl processSample st with
    frameCount := (chunk.foldl processSample st).frameCount + 1 }

/-- Constructor state of the worklet processor: `bufferSize = 2048`, a
zero-filled `Float32Array(2048)`, both counters at 0; `sampleRate` is
the AudioWorklet global. -/
def initState (sampleRate : ℚ) : WState :=
  ⟨2048, List.replicate 2048 0, 0, 0, none, [], sampleRate⟩

/-- A sequence of `process()` calls, one per incoming chunk. -/
def processChunks (st : WState) (chunks : List (List ℚ)) : WState :=
  chunks.foldl processAudioData st

lemma processSample_run (l : List ℚ) :
    ∀ st : WState, st.bufferIndex < st.bufferSize →
      (l.foldl processSample st).bufferSize = st.bufferSize ∧
      (l.foldl processSample st).sampleRate = st.sampleRate ∧
      (l.foldl processSample st).frameCount = st.frameCount ∧
      (l.foldl processSample st).bufferIndex
        = (st.bufferIndex + l.length) % st.bufferSize ∧
      (l.foldl processSample st).emitted.map EmittedFrame.timestamp
        = st.emitted.map EmittedFrame.timestamp ++
          List.replicate ((st.bufferIndex + l.length) / st.bufferSize)
            ((st.frameCount : ℚ) * st.bufferSize / st.sampleRate) := by
  induction l with
  | nil =>
      intro st hlt
      refine ⟨rfl, rfl, rfl, ?_, ?_⟩
      · simp [Nat.mod_eq_of_lt hlt]
      · simp [Nat.div_eq_of_lt hlt]
  | cons s rest ih =>
      intro st hlt
      have hsize : 0 < st.bufferSize := by omega
      simp only [List.foldl_cons]
      by_cases hfill : st.bufferSize ≤ st.bufferIndex + 1
      · have hidx : st.bufferIndex + 1 = st.bufferSize := by omega
        have hstep : processSample st s =
            { analyzeBuffer
                { st with buffer := st.buffer.set st.bufferIndex s,
                          bufferIndex := st.bufferIndex + 1 } with
              bufferIndex := 0 } := by
          unfold processSample
          rw [if_pos hfill]
        rw [hstep]
        set st2 := { analyzeBuffer
            { st with buffer := st.buffer.set st.bufferIndex s,
                      bufferIndex := st.bufferIndex + 1 } with
          bufferIndex := 0 } with hst2
        have h2 : st2.bufferIndex < st2.bufferSize := by
          simp [hst2, analyzeBuffer, hsize]
        obtain ⟨e1, e2, e3, e4, e5⟩ := ih st2 h2
        have hb : st2.bufferSize = st.bufferSize := by simp [hst2, analyzeBuffer]
        have hsr : st2.sampleRate = st.sampleRate := by simp [hst2, analyzeBuffer]
        have hf : st2.frameCount = st.frameCount := by simp [hst2, analyzeBuffer]
        have he : st2.emitted.map EmittedFrame.timestamp
            = st.emitted.map EmittedFrame.timestamp ++
              [(st.frameCount : ℚ) * st.bufferSize / st.sampleRate] := by
          simp [hst2, analyzeBuffer]
        have hi : st2.bufferIndex = 0 := by simp [hst2]
        have harith : st.bufferIndex + (s :: rest).length
            = rest.length + st.bufferSize := by
          simp only [List.length_cons]
          omega
        refine ⟨by rw [e1, hb], by rw [e2, hsr], by rw [e3, hf], ?_, ?_⟩
        · rw [e4, hb, hi, harith, Nat.add_mod_right, Nat.zero_add]
        · rw [e5, he, hb, hsr, hf, hi, Nat.zero_add, harith,
            Nat.add_div_right _ hsize, List.append_assoc]
          simp [List.replicate_succ]
      · have hstep : processSample st s =
            { st with buffer := st.buffer.set st.bufferIndex s,
                      bufferIndex := st.bufferIndex + 1 } := by
          unfold processSample
          rw [if_neg hfill]
        rw [hstep]
        set st1 := { st with buffer := st.buffer.set st.bufferIndex s,
                             bufferIndex := st.bufferIndex + 1 } with hst1
        have h1 : st1.bufferIndex < st1.bufferSize := by
          simp only [hst1]
          omega
        obtain ⟨e1, e2, e3, e4, e5⟩ := ih st1 h1
        have harith : st.bufferIndex + 1 + rest.length
            = st.bufferIndex + (s :: rest).length := by
          simp only [List.length_cons]
          omega
        refine ⟨e1, e2, e3, ?_, ?_⟩
        · rw [e4]
          simp only [hst1]
          rw [harith]
        · rw [e5]
          simp only [hst1]
          rw [harith]

end TimeShaperProcessor

end

noncomputable section

namespace TimeShaperProcessor

lemma processAudioData_run (st : WState) (chunk : List ℚ)
    (h : st.bufferIndex < st.bufferSize) :
    (processAudioData st chunk).bufferSize = st.bufferSize ∧
      (processAudioData st chunk).sampleRate = st.sampleRate ∧
      (processAudioData st chunk).frameCount = st.frameCount + 1 ∧
      (processAudioData st chunk).bufferIndex
        = (st.bufferIndex + chunk.length) % st.bufferSize ∧
      (processAudioData st chunk).bufferIndex
        < (processAudioData st chunk).bufferSize ∧
      (processAudioData st chunk).emitted.map EmittedFrame.timestamp
        = st.emitted.map EmittedFrame.timestamp ++
          List.replicate ((st.bufferIndex + chunk.length) / st.bufferSize)
            ((st.frameCount : ℚ) * st.bufferSize / st.sampleRate) := by
  obtain ⟨e1, e2, e3, e4, e5⟩ := processSample_run chunk st h
  unfold processAudioData
  refine ⟨e1, e2, by rw [e3], e4, ?_, e5⟩
  rw [e4, e1]
  exact Nat.mod_lt _ (by omega)

lemma processChunks_invariant (sr : ℚ) (cs : List (List ℚ)) :
    (processChunks (initState sr) cs).bufferSize = 2048 ∧
      (processChunks (initState sr) cs).sampleRate = sr ∧
      (processChunks (initState sr) cs).frameCount = cs.length ∧
      (processChunks (initState sr) cs).bufferIndex
        < (processChunks (initState sr) cs).bufferSize := by
  induction cs using List.reverseRecOn with
  | nil =>
      refine ⟨rfl, rfl, rfl, ?_⟩
      norm_num [processChunks, initState]
  | append_singleton cs c ih =>
      obtain ⟨i1, i2, i3, i4⟩ := ih
      have hfold : processChunks (initState sr) (cs ++ [c])
          = processAudioData (processChunks (initState sr) cs) c := by
        unfold processChunks
        rw [List.foldl_append]
        rfl
      obtain ⟨e1, e2, e3, e4, e5, _⟩ :=
        processAudioData_run (processChunks (initState sr) cs) c i4
      rw [hfold]
      refine ⟨by rw [e1, i1], by rw [e2, i2], ?_, e5⟩
      rw [e3, i3, List.length_append, List.length_singleton]

/-- Claim C6 (amended): every frame forwarded during the processing of
one incoming chunk is stamped `frameCount * 2048 / sampleRate`, where
`frameCount` counts the chunks (`process()` calls) fully handled before
that chunk — not the buffer fills.  In particular, on a fresh run all
fills occurring during the `j`-th chunk (0-indexed) are stamped
`j * 2048 / sampleRate`, whatever the chunk sizes. -/
theorem emitted_timestamps_chunk_count (sr : ℚ) (cs : List (List ℚ))
    (c : List ℚ) :
    (processAudioData (processChunks (initState sr) cs) c).emitted.map
        EmittedFrame.timestamp
      = (processChunks (initState sr) cs).emitted.map EmittedFrame.timestamp
        ++ List.replicate
          (((processChunks (initState sr) cs).bufferIndex + c.length) / 2048)
          ((cs.length : ℚ) * 2048 / sr) := by
  obtain ⟨i1, i2, i3, i4⟩ := processChunks_invariant sr cs
  obtain ⟨-, -, -, -, -, e6⟩ :=
    processAudioData_run (processChunks (initState sr) cs) c i4
  rw [e6, i1, i2, i3]
  norm_cast

/-- Claim C6 counterexample: feed a fresh processor (sample rate 2048)
one 2048-sample chunk.  The single buffer fill is stamped
`frameCount * 2048 / sampleRate = 0` because `frameCount` is still 0
during the first chunk, whereas the claim's `n * 2048 / sampleRate`
formula demands `1 * 2048 / 2048 = 1` for the first fill. -/
theorem emitted_timestamp_cex :
    (processAudioData (initState 2048) (List.replicate 2048 0)).emitted.map
        EmittedFrame.timestamp = [(0 : ℚ)] ∧
      (0 : ℚ) ≠ (1 : ℚ) * 2048 / 2048 := by
  constructor
  · obtain ⟨-, -, -, -, -, e6⟩ :=
      processAudioData_run (initState 2048) (List.replicate 2048 0)
        (by norm_num [initState])
    rw [e6]
    norm_num [initState]
  · norm_num

end TimeShaperProcessor

end

namespace VideoEngine

/-- A decoded `ImageData`: width, height and the RGBA byte array. -/
structure Frame where
  width : ℕ
  height : ℕ
  data : List ℕ
deriving DecidableEq

instance : Inhabited Frame := ⟨⟨0, 0, []⟩⟩

/-- A histogram entry or k-means centroid:
`{r, g, b, count}` as used throughout the color pipeline. -/
structure Color where
  r : ℤ
  g : ℤ
  b : ℤ
  count : ℕ
deriving DecidableEq

instance : Inhabited Color := ⟨⟨0, 0, 0, 0⟩⟩

/-- Start indices of the `i += 4` per-pixel walk over an RGBA array. -/
def pixelStarts (len : ℕ) : List ℕ :=
  (List.range ((len + 3) / 4)).map (fun j => 4 * j)

/-- Start indices of the `i += 16` every-4th-pixel sampling walk. -/
def sampleStarts (len : ℕ) : List ℕ :=
  (List.range ((len + 15) / 16)).map (fun j => 16 * j)

/-- The `Math.floor(v / 32) * 32`: quantize a channel to its 32-level
bucket. -/
def quantize (v : ℕ) : ℕ := v / 32 * 32

/-- The quantized `(r, g, b)` key of each sampled pixel, in sampling
order (`extractDominantColors`'s loop body). -/
def sampledKeys (frame : Frame) : List (ℤ × ℤ × ℤ) :=
  (sampleStarts frame.data.length).map fun i =>
    ((quantize (frame.data.getD i 0) : ℤ),
     (quantize (frame.data.getD (i + 1) 0) : ℤ),
     (quantize (frame.data.getD (i + 2) 0) : ℤ))

/-- Keys of a JS `Map` built by repeated insertion: first-occurrence
order, no duplicates. -/
def firstOccur {α : Type} [DecidableEq α] (l : List α) : List α :=
  l.foldl (fun acc k => if k ∈ acc then acc else acc ++ [k]) []

/-- The `colorMap` of `extractDominantColors`: one `Color` per distinct
quantized key, in first-occurrence order, carrying its sample count. -/
def colorTally (frame : Frame) : List Color :=
  (firstOccur (sampledKeys frame)).map fun k =>
    ⟨k.1, k.2.1, k.2.2, (sampledKeys frame).count k⟩

/-- Stable insertion into a count-descending list (JS `Array.sort` with
comparator `(a, b) => b.count - a.count` is a stable descending sort). -/
def insertByCount (c : Color) : List Color → List Color
  | [] => [c]
  | x :: xs => if c.count < x.count then x :: insertByCount c xs else c :: x :: xs

/-- Stable sort by descending count. -/
def sortByCountDesc : List Color → List Color
  | [] => []
  | x :: xs => insertByCount x (sortByCountDesc xs)

/-- The `VideoEngine.extractDominantColors(frame, count)`: quantized
sampling histogram, sorted by descending count, truncated to `count`
entries. -/
def extractDominantColors (frame : Frame) (count : ℕ) : List Color :=
  (sortByCountDesc (colorTally frame)).take count

/-- The `computeColorTemperature`: count-weighted average of
`(r - b + 255) / 510`, defaulting to 0.5 on zero weight. -/
def computeColorTemperature (colors : List Color) : ℚ :=
  let totalWeight : ℚ := (colors.map (fun c => (c.count : ℚ))).sum
  let weightedTemp : ℚ :=
    (colors.map (fun c => ((c.r : ℚ) - (c.b : ℚ) + 255) / 510 * c.count)).sum
  if 0 < totalWeight then weightedTemp / totalWeight else 1/2

/-- The `computeSaturation`: count-weighted average of `(max - min) / max`
(0 for a zero max), defaulting to 0 on zero weight. -/
def computeSaturation (colors : List Color) : ℚ :=
  let totalWeight : ℚ := (colors.map (fun c => (c.count : ℚ))).sum
  let weightedSat : ℚ :=
    (colors.map (fun c =>
      (if 0 < max c.r (max c.g c.b) then
        ((max c.r (max c.g c.b) : ℚ) - (min c.r (min c.g c.b) : ℚ))
          / (max c.r (max c.g c.b) : ℚ)
      else 0) * c.count)).sum
  if 0 < totalWeight then weightedSat / totalWeight else 0

/-- The squared Euclidean RGB distance (integer-valued); `colorDistance`
is its square root. -/
def colorDistSq (c1 c2 : Color) : ℤ :=
  (c1.r - c2.r) ^ 2 + (c1.g - c2.g) ^ 2 + (c1.b - c2.b) ^ 2

/-- Nearest-centroid scan with an exact squared-distance comparison;
equal to the source's square-root comparison (`nearestScan`) because the
square root is strictly monotone on nonnegative reals. -/
def nearestScanSq (color : Color) (cents : List Color) : ℕ × Option ℤ :=
  cents.enum.foldl
    (fun acc p =>
      match acc.2 with
      | none => (p.1, some (colorDistSq color p.2))
      | some best =>
          if colorDistSq color p.2 < best then
            (p.1, some (colorDistSq color p.2))
          else acc)
    (0, none)

def nearestIndexSq (color : Color) (cents : List Color) : ℕ :=
  (nearestScanSq color cents).1

/-- The cluster-assignment loop of `clusterColors`, parametrized by the
nearest-centroid function: push each color onto the cluster of its
nearest centroid. -/
def assignClustersWith (nearest : Color → List Color → ℕ)
    (colors cents : List Color) (k : ℕ) : List (List Color) :=
  colors.foldl
    (fun clusters color =>
      clusters.set (nearest color cents)
        (clusters.getD (nearest color cents) [] ++ [color]))
    (List.replicate k [])

/-- The centroid-update step: a nonempty cluster replaces its centroid
with the rounded count-weighted mean (and the summed count); an empty
cluster leaves its centroid unchanged. -/
def updateCentroid (cluster : List Color) (old : Color) : Color :=
  if cluster.length = 0 then old
  else
    ⟨jsRound ((cluster.map (fun c => (c.r : ℚ) * c.count)).sum
        / (cluster.map (fun c => (c.count : ℚ))).sum),
     jsRound ((cluster.map (fun c => (c.g : ℚ) * c.count)).sum
        / (cluster.map (fun c => (c.count : ℚ))).sum),
     jsRound ((cluster.map (fun c => (c.b : ℚ) * c.count)).sum
        / (cluster.map (fun c => (c.count : ℚ))).sum),
     (cluster.map Color.count).sum⟩

/-- One k-means iteration: assign, then update each centroid. -/
def kmeansStepWith (nearest : Color → List Color → ℕ)
    (colors : List Color) (k : ℕ) (cents : List Color) : List Color :=
  cents.enum.map fun p =>
    updateCentroid ((assignClustersWith nearest colors cents k).getD p.1 []) p.2

/-- The `VideoEngine.clusterColors(colors, k)` parametrized by the
nearest-centroid function: identity below `k` entries, otherwise 10
k-means iterations from the first `k` entries. -/
def clusterColorsWith (nearest : Color → List Color → ℕ)
    (colors : List Color) (k : ℕ) : List Color :=
  if colors.length ≤ k then colors
  else (kmeansStepWith nearest colors k)^[10] (colors.take k)

/-- Fully computable variant used to evaluate concrete instances. -/
def clusterColorsSq (colors : List Color) (k : ℕ) : List Color :=
  clusterColorsWith nearestIndexSq colors k

end VideoEngine

noncomputable section

namespace VideoEngine

/-- The `VideoEngine.colorDistance`: Euclidean RGB distance. -/
def colorDistance (c1 c2 : Color) : ℝ :=
  Real.sqrt ((((c1.r - c2.r : ℤ) : ℝ)) ^ 2 + (((c1.g - c2.g : ℤ) : ℝ)) ^ 2 +
    (((c1.b - c2.b : ℤ) : ℝ)) ^ 2)

/-- The `centroids.forEach` nearest-centroid scan of `clusterColors`:
`nearestDistance` starts at `Infinity` (modelled as `none`) and is
beaten by any finite distance; thereafter strictly smaller distances
win. -/
def nearestScan (color : Color) (cents : List Color) : ℕ × Option ℝ :=
  cents.enum.foldl
    (fun acc p =>
      match acc.2 with
      | none => (p.1, some (colorDistance color p.2))
      | some best =>
          if colorDistance color p.2 < best then
            (p.1, some (colorDistance color p.2))
          else acc)
    (0, none)

def nearestIndex (color : Color) (cents : List Color) : ℕ :=
  (nearestScan color cents).1

/-- The `VideoEngine.clusterColors`, as in the source (square-root
distances). -/
def clusterColors (colors : List Color) (k : ℕ) : List Color :=
  clusterColorsWith nearestIndex colors k

/-- The template-literal `rgb(r,g,b)` formatting of `analyzeColor`. -/
def rgbString (c : Color) : String :=
  "rgb(" ++ toString c.r ++ "," ++ toString c.g ++ "," ++ toString c.b ++ ")"

inductive ColorMood
  | warm
  | cool
  | vibrant
  | muted
deriving DecidableEq

/-- The `ColorAnalysis` record returned by `analyzeColor`. -/
structure ColorAnalysis where
  dominantColors : List String
  temperature : ℚ
  saturation : ℚ
  mood : ColorMood

/-- The `VideoEngine.analyzeColor`: per-frame dominant-color extraction
(5 entries each), pooled and k-means-clustered into 3 dominant colors;
frame-averaged temperature and saturation pick the mood. -/
def analyzeColor (frames : List Frame) : ColorAnalysis :=
  { dominantColors :=
      (clusterColors (frames.flatMap (fun f => extractDominantColors f 5)) 3).map
        rgbString
    temperature :=
      (frames.map (fun f => computeColorTemperature (extractDominantColors f 5))).sum
        / frames.length
    saturation :=
      (frames.map (fun f => computeSaturation (extractDominantColors f 5))).sum
        / frames.length
    mood :=
      if 3/5 <
            (frames.map
              (fun f => computeColorTemperature (extractDominantColors f 5))).sum
            / frames.length ∧
          3/5 <
            (frames.map
              (fun f => computeSaturation (extractDominantColors f 5))).sum
            / frames.length then
        ColorMood.warm
      else if
            (frames.map
              (fun f => computeColorTemperature (extractDominantColors f 5))).sum
            / frames.length < 2/5 ∧
          3/5 <
            (frames.map
              (fun f => computeSaturation (extractDominantColors f 5))).sum
            / frames.length then
        ColorMood.cool
      else if 7/10 <
            (frames.map
              (fun f => computeSaturation (extractDominantColors f 5))).sum
            / frames.length then
        ColorMood.vibrant
      else ColorMood.muted }

end VideoEngine

end

noncomputable section

namespace VideoEngine

/-- Per-pixel normalized Euclidean RGB distance of
`computeFrameDifference`'s loop body. -/
def pixelDiff (f1 f2 : Frame) (i : ℕ) : ℝ :=
  Real.sqrt
    (((f2.data.getD i 0 : ℝ) - (f1.data.getD i 0 : ℝ)) ^ 2 +
     ((f2.data.getD (i + 1) 0 : ℝ) - (f1.data.getD (i + 1) 0 : ℝ)) ^ 2 +
     ((f2.data.getD (i + 2) 0 : ℝ) - (f1.data.getD (i + 2) 0 : ℝ)) ^ 2) /
    (255 * Real.sqrt 3)

/-- The `VideoEngine.computeFrameDifference`: mean of the per-pixel
normalized distances over `frame1`'s pixel walk. -/
def computeFrameDifference (f1 f2 : Frame) : ℝ :=
  ((pixelStarts f1.data.length).map (pixelDiff f1 f2)).sum /
    ((pixelStarts f1.data.length).length : ℝ)

/-- The `computeFrameBrightness`: mean per-pixel luminance
`(0.299 r + 0.587 g + 0.114 b) / 255`. -/
def computeFrameBrightness (frame : Frame) : ℚ :=
  ((pixelStarts frame.data.length).map (fun i =>
      (299/1000 * (frame.data.getD i 0 : ℚ) +
       587/1000 * (frame.data.getD (i + 1) 0 : ℚ) +
       114/1000 * (frame.data.getD (i + 2) 0 : ℚ)) / 255)).sum
    / ((pixelStarts frame.data.length).length : ℚ)

/-- Interior pixel coordinates `(y, x)` with `1 ≤ y < height - 1` and
`1 ≤ x < width - 1`, in row-major loop order. -/
def interior (frame : Frame) : List (ℕ × ℕ) :=
  ((List.range (frame.height - 2)).map (· + 1)).flatMap fun y =>
    ((List.range (frame.width - 2)).map (· + 1)).map fun x => (y, x)

/-- The gradient magnitude of `computeEdgeCount` at an interior pixel:
central differences on the red channel, normalized by 255. -/
def gradientMagnitude (frame : Frame) (y x : ℕ) : ℝ :=
  Real.sqrt
    ((((frame.data.getD ((y * frame.width + x) * 4 + 4) 0 : ℚ) -
        (frame.data.getD ((y * frame.width + x) * 4 - 4) 0 : ℚ)) / 2 : ℚ) ^ 2 +
     (((frame.data.getD ((y * frame.width + x) * 4 + frame.width * 4) 0 : ℚ) -
        (frame.data.getD ((y * frame.width + x) * 4 - frame.width * 4) 0 : ℚ))
        / 2 : ℚ) ^ 2)
    / 255

/-- The `computeEdgeCount`: fraction of interior pixels whose gradient
magnitude exceeds 0.1 (0 when there are no interior pixels). -/
def computeEdgeCount (frame : Frame) : ℝ :=
  if 0 < (interior frame).length then
    (((interior frame).filter
        (fun p => decide ((1/10 : ℝ) < gradientMagnitude frame p.1 p.2))).length : ℝ)
      / ((interior frame).length : ℝ)
  else 0

inductive SceneType
  | outdoor
  | indoor
  | closeUp
  | wide
  | medium
deriving DecidableEq

/-- The `VideoEngine.classifyScene`: fixed-priority rules over brightness,
green dominance and edge density, each with a fixed confidence. -/
def classifyScene (frame : Frame) : SceneType × ℚ :=
  if 3/5 < computeFrameBrightness frame ∧
      (extractDominantColors frame 3).any
        (fun c => decide (c.r < c.g) && decide (c.b < c.g)) then
    (SceneType.outdoor, 7/10)
  else if computeFrameBrightness frame < 2/5 ∨
      (3/10 : ℝ) < computeEdgeCount frame then
    (SceneType.indoor, 3/5)
  else if computeEdgeCount frame < (1/10 : ℝ) then
    (SceneType.closeUp, 4/5)
  else if (2/5 : ℝ) < computeEdgeCount frame then
    (SceneType.wide, 7/10)
  else (SceneType.medium, 1/2)

/-- One `SceneAnalysis` entry; the JS field `end` is called `stop`
here (`end` is a Lean keyword). -/
structure SceneAnalysis where
  start : ℚ
  stop : ℚ
  type : SceneType
  confidence : ℚ

/-- The body of `analyzeScenes`'s frame walk at index `i`: a cut is
detected when the frame difference exceeds 0.3; the scene closing at
`i * frameInterval` is classified from the frame before the cut. -/
def sceneStep (frames : List Frame) (fi : ℚ)
    (st : ℚ × List SceneAnalysis) (i : ℕ) : ℚ × List SceneAnalysis :=
  if (3/10 : ℝ) <
      computeFrameDifference (frames.getD (i - 1) default) (frames.getD i default)
  then
    ((i : ℚ) * fi,
      st.2 ++ [⟨st.1, (i : ℚ) * fi,
        (classifyScene (frames.getD (i - 1) default)).1,
        (classifyScene (frames.getD (i - 1) default)).2⟩])
  else st

/-- The scene-walk accumulator after the indices `1 … m`
(`currentSceneStart`, accumulated `scenes`). -/
def sceneFold (frames : List Frame) (fi : ℚ) (m : ℕ) :
    ℚ × List SceneAnalysis :=
  (List.range' 1 m).foldl (sceneStep frames fi) (0, [])

/-- The `VideoEngine.analyzeScenes(frames, duration)`: walk indices
`1 … frames.length - 1` accumulating cut scenes, then close the final
scene at `duration` (classified from the last frame) whenever the
current scene start is still below `duration`.  `none` models the crash
on classifying the last frame of an empty sequence. -/
def analyzeScenes (frames : List Frame) (duration : ℚ) :
    Option (List SceneAnalysis) :=
  if (sceneFold frames (duration / frames.length) (frames.length - 1)).1
      < duration then
    match frames.getLast? with
    | some f =>
        some ((sceneFold frames (duration / frames.length)
            (frames.length - 1)).2 ++
          [⟨(sceneFold frames (duration / frames.length)
              (frames.length - 1)).1,
            duration, (classifyScene f).1, (classifyScene f).2⟩])
    | none => none
  else
    some ((sceneFold frames (duration / frames.length) (frames.length - 1)).2)

end VideoEngine

end

namespace VideoEngine

/-- Block-local offsets `(dy, dx)` of `computeBlockError`'s loops. -/
def blockOffsets (blockSize : ℕ) : List (ℕ × ℕ) :=
  (List.range blockSize).flatMap fun dy =>
    (List.range blockSize).map fun dx => (dy, dx)

/-- The `computeBlockError`: mean absolute RGB difference over the in-bounds
pixels of a block pair, normalized by `255·3`; 1 when no pixel of the
block is in bounds. -/
def computeBlockError (f1 f2 : Frame) (x1 y1 x2 y2 : ℤ) (blockSize : ℕ) : ℚ :=
  let idx1 := fun (p : ℕ × ℕ) => ((y1 + p.1) * f1.width + (x1 + p.2)) * 4
  let idx2 := fun (p : ℕ × ℕ) => ((y2 + p.1) * f1.width + (x2 + p.2)) * 4
  let valid := (blockOffsets blockSize).filter fun p =>
    decide (0 ≤ idx1 p) && decide (idx1 p < (f1.data.length : ℤ)) &&
      decide (0 ≤ idx2 p) && decide (idx2 p < (f2.data.length : ℤ))
  if 0 < valid.length then
    (valid.map fun p =>
      ((|(f2.data.getD (idx2 p).toNat 0 : ℤ) -
          (f1.data.getD (idx1 p).toNat 0 : ℤ)| +
        |(f2.data.getD ((idx2 p).toNat + 1) 0 : ℤ) -
          (f1.data.getD ((idx1 p).toNat + 1) 0 : ℤ)| +
        |(f2.data.getD ((idx2 p).toNat + 2) 0 : ℤ) -
          (f1.data.getD ((idx1 p).toNat + 2) 0 : ℤ)| : ℤ) : ℚ)).sum
      / ((valid.length : ℚ) * 255 * 3)
  else 1

/-- Search offsets `(dy, dx)` of `findBestMatch`, both from `-radius` to
`radius` inclusive, `dy` outer. -/
def searchOffsets (radius : ℕ) : List (ℤ × ℤ) :=
  (List.range (2 * radius + 1)).flatMap fun i =>
    (List.range (2 * radius + 1)).map fun j =>
      ((i : ℤ) - radius, (j : ℤ) - radius)

/-- The `findBestMatch`: scan the search window keeping the first strictly
smallest block error (`bestError` starts at `Infinity`, modelled as
`none`); returns the winning `(dx, dy)`. -/
def findBestMatch (f1 f2 : Frame) (x y : ℤ) (blockSize radius : ℕ) : ℤ × ℤ :=
  ((searchOffsets radius).foldl
    (fun acc p =>
      match acc.2 with
      | none =>
          ((p.2, p.1), some (computeBlockError f1 f2 x y (x + p.2) (y + p.1) blockSize))
      | some best =>
          if computeBlockError f1 f2 x y (x + p.2) (y + p.1) blockSize < best then
            ((p.2, p.1), some (computeBlockError f1 f2 x y (x + p.2) (y + p.1) blockSize))
          else acc)
    ((0, 0), none)).1

/-- Top-left corners of the 16×16 block walk: multiples of 16 strictly
below `limit` (`limit` is the JS `height - blockSize`, clamped at 0 for
frames smaller than one block, where the JS loop does not run). -/
def blockStarts (limit : ℕ) : List ℕ :=
  (List.range ((limit + 15) / 16)).map (fun j => 16 * j)

/-- The `computeOpticalFlow`: average block-matching displacement over all
blocks, `(0, 0)` when the frame is smaller than one block. -/
def computeOpticalFlow (f1 f2 : Frame) : ℚ × ℚ :=
  if 0 < ((blockStarts (f1.height - 16)).length * (blockStarts (f1.width - 16)).length) then
    ((((blockStarts (f1.height - 16)).flatMap fun y =>
        (blockStarts (f1.width - 16)).map fun x =>
          findBestMatch f1 f2 (x : ℤ) (y : ℤ) 16 8).map
        (fun v => (v.1 : ℚ))).sum
      / (((blockStarts (f1.height - 16)).length *
          (blockStarts (f1.width - 16)).length : ℕ) : ℚ),
     (((blockStarts (f1.height - 16)).flatMap fun y =>
        (blockStarts (f1.width - 16)).map fun x =>
          findBestMatch f1 f2 (x : ℤ) (y : ℤ) 16 8).map
        (fun v => (v.2 : ℚ))).sum
      / (((blockStarts (f1.height - 16)).length *
          (blockStarts (f1.width - 16)).length : ℕ) : ℚ))
  else (0, 0)

end VideoEngine

noncomputable section

namespace VideoEngine

/-- The `computeVariance` over real-valued samples. -/
def computeVariance (values : List ℝ) : ℝ :=
  (values.map (fun v => (v - values.sum / values.length) ^ 2)).sum
    / values.length

inductive MotionDirection
  | static
  | horizontal
  | vertical
  | mixed
deriving DecidableEq

inductive MotionClass
  | static
  | low
  | medium
  | high
deriving DecidableEq

/-- The `MotionAnalysis` record of `analyzeMotion`. -/
structure MotionAnalysis where
  intensity : ℝ
  direction : MotionDirection
  consistency : ℝ
  classification : MotionClass

/-- The consecutive-pair indices `1 … frames.length - 1` of
`analyzeMotion`'s loop. -/
def motionIdxs (frames : List Frame) : List ℕ :=
  (List.range (frames.length - 1)).map (· + 1)

/-- Per-pair frame-difference intensities. -/
def motionValues (frames : List Frame) : List ℝ :=
  (motionIdxs frames).map fun i =>
    computeFrameDifference (frames.getD (i - 1) default) (frames.getD i default)

/-- The `VideoEngine.analyzeMotion`: zeroed static result below two frames;
otherwise averages of pairwise intensity and absolute block-matching
displacements, with fixed-threshold direction and intensity classes. -/
def analyzeMotion (frames : List Frame) : MotionAnalysis :=
  if frames.length < 2 then
    ⟨0, MotionDirection.static, 1, MotionClass.static⟩
  else
    { intensity := (motionValues frames).sum / ((frames.length - 1 : ℕ) : ℝ)
      direction :=
        if (motionValues frames).sum / ((frames.length - 1 : ℕ) : ℝ) < 1/10 then
          MotionDirection.static
        else if
            (((motionIdxs frames).map fun i =>
              |(computeOpticalFlow (frames.getD (i - 1) default)
                  (frames.getD i default)).2|).sum
                / ((frames.length - 1 : ℕ) : ℚ)) * (3/2) <
            (((motionIdxs frames).map fun i =>
              |(computeOpticalFlow (frames.getD (i - 1) default)
                  (frames.getD i default)).1|).sum
                / ((frames.length - 1 : ℕ) : ℚ)) then
          MotionDirection.horizontal
        else if
            (((motionIdxs frames).map fun i =>
              |(computeOpticalFlow (frames.getD (i - 1) default)
                  (frames.getD i default)).1|).sum
                / ((frames.length - 1 : ℕ) : ℚ)) * (3/2) <
            (((motionIdxs frames).map fun i =>
              |(computeOpticalFlow (frames.getD (i - 1) default)
                  (frames.getD i default)).2|).sum
                / ((frames.length - 1 : ℕ) : ℚ)) then
          MotionDirection.vertical
        else MotionDirection.mixed
      consistency := max 0 (1 - computeVariance (motionValues frames))
      classification :=
        if (motionValues frames).sum / ((frames.length - 1 : ℕ) : ℝ) < 1/10 then
          MotionClass.static
        else if (motionValues frames).sum / ((frames.length - 1 : ℕ) : ℝ) < 3/10 then
          MotionClass.low
        else if (motionValues frames).sum / ((frames.length - 1 : ℕ) : ℝ) < 3/5 then
          MotionClass.medium
        else MotionClass.high }

end VideoEngine

end

namespace VideoEngine

/-- What claim C2 calls a partition of `[0, duration]`: nonempty, starts
at 0, closes at `duration`, each scene's end is the next scene's start,
and every scene has positive extent (no overlaps). -/
def ScenesPartition (l : List SceneAnalysis) (duration : ℚ) : Prop :=
  l ≠ [] ∧
    l.head?.map SceneAnalysis.start = some 0 ∧
    l.getLast?.map SceneAnalysis.stop = some duration ∧
    List.Chain' (fun a b => a.stop = b.start) l ∧
    ∀ s ∈ l, s.start < s.stop

/-- The invariant carried by the scene walk. -/
def SceneInv (fi : ℚ) (m : ℕ) (st : ℚ × List SceneAnalysis) : Prop :=
  (st.1 = 0 ∧ st.2 = []) ∨
    (∃ j : ℕ, 1 ≤ j ∧ j ≤ m ∧ st.1 = (j : ℚ) * fi ∧ st.2 ≠ [] ∧
      st.2.head?.map SceneAnalysis.start = some 0 ∧
      st.2.getLast?.map SceneAnalysis.stop = some st.1 ∧
      List.Chain' (fun a b => a.stop = b.start) st.2 ∧
      ∀ s ∈ st.2, s.start < s.stop)

lemma sceneFold_inv (frames : List Frame) (fi : ℚ) (hfi : 0 < fi) :
    ∀ m : ℕ, SceneInv fi m (sceneFold frames fi m) := by
  intro m
  induction m with
  | zero => exact Or.inl ⟨rfl, rfl⟩
  | succ m ih =>
      have hconcat : sceneFold frames fi (m + 1)
          = sceneStep frames fi (sceneFold frames fi m) (1 + m) := by
        unfold sceneFold
        rw [List.range'_concat, List.foldl_append, List.foldl_cons, List.foldl_nil]
        norm_num
      rw [hconcat]
      set st := sceneFold frames fi m with hst
      unfold sceneStep
      by_cases hcut : (3/10 : ℝ) <
          computeFrameDifference (frames.getD (1 + m - 1) default)
            (frames.getD (1 + m) default)
      · rw [if_pos hcut]
        right
        have hlt : st.1 < ((1 + m : ℕ) : ℚ) * fi := by
          rcases ih with ⟨h0, -⟩ | ⟨j, hj1, hjm, hcur, -⟩
          · rw [h0]
            positivity
          · rw [hcur]
            have hjlt : (j : ℚ) < ((1 + m : ℕ) : ℚ) := by
              exact_mod_cast by omega
            exact mul_lt_mul_of_pos_right hjlt hfi
        refine ⟨1 + m, by omega, by omega, rfl, by simp, ?_, ?_, ?_, ?_⟩
        · rcases ih with ⟨h0, h2⟩ | ⟨j, -, -, -, hne, hhead, -, -, -⟩
          · rw [h2, h0]
            simp
          · rw [List.head?_append_of_ne_nil _ hne]
            exact hhead
        · rw [List.getLast?_concat]
          simp
        · rcases ih with ⟨h0, h2⟩ | ⟨j, -, -, hcur, -, -, hlast, hchain, -⟩
          · rw [h2]
            simp
          · apply List.Chain'.append hchain (List.chain'_singleton _)
            intro x hx y hy
            simp only [List.head?_cons, Option.mem_def, Option.some.injEq] at hy
            subst hy
            have : st.2.getLast?.map SceneAnalysis.stop
                = some st.1 := hlast
            rw [Option.mem_def] at hx
            have hx' : st.2.getLast?.map SceneAnalysis.stop
                = some x.stop := by rw [hx]; rfl
            rw [this] at hx'
            simp only [Option.some.injEq] at hx'
            simp [← hx']
        · intro s hs
          rcases List.mem_append.mp hs with hmem | hmem
          · rcases ih with ⟨-, h2⟩ | ⟨j, -, -, -, -, -, -, -, hall⟩
            · rw [h2] at hmem
              simp at hmem
            · exact hall s hmem
          · simp only [List.mem_singleton] at hmem
            subst hmem
            exact hlt
      · rw [if_neg hcut]
        rcases ih with h | ⟨j, hj1, hjm, hrest⟩
        · exact Or.inl h
        · exact Or.inr ⟨j, hj1, by omega, hrest⟩

end VideoEngine

namespace VideoEngine

/-- Claim C2: for every nonempty frame sequence and positive total
duration, the scene list partitions `[0, duration]`: the first scene
starts at 0, each scene's end equals the next scene's start, scenes have
positive extent (no gaps, no overlaps), and the final scene closes
exactly at the total duration. -/
theorem analyzeScenes_partitions (frames : List Frame) (duration : ℚ)
    (hne : frames ≠ []) (hdur : 0 < duration) :
    ∃ l, analyzeScenes frames duration = some l ∧
      ScenesPartition l duration := by
  have hn : 0 < frames.length := List.length_pos.mpr hne
  have hnq : (0 : ℚ) < (frames.length : ℚ) := by exact_mod_cast hn
  have hfi : 0 < duration / (frames.length : ℚ) := div_pos hdur hnq
  have hinv := sceneFold_inv frames (duration / (frames.length : ℚ)) hfi
    (frames.length - 1)
  set st := sceneFold frames (duration / (frames.length : ℚ))
    (frames.length - 1) with hst
  have hcur_lt : st.1 < duration := by
    rcases hinv with ⟨h0, -⟩ | ⟨j, hj1, hjm, hcur, -⟩
    · rw [h0]; exact hdur
    · rw [hcur]
      have hjlen : (j : ℚ) < (frames.length : ℚ) := by
        exact_mod_cast by omega
      calc (j : ℚ) * (duration / (frames.length : ℚ))
          < (frames.length : ℚ) * (duration / (frames.length : ℚ)) :=
            mul_lt_mul_of_pos_right hjlen hfi
        _ = duration := by field_simp
  obtain ⟨f, hf⟩ : ∃ f, frames.getLast? = some f := by
    have := (List.getLast?_isSome (l := frames)).mpr hne
    exact Option.isSome_iff_exists.mp this
  have hform : analyzeScenes frames duration
      = some (st.2 ++
          [⟨st.1, duration, (classifyScene f).1, (classifyScene f).2⟩]) := by
    unfold analyzeScenes
    rw [← hst, if_pos hcur_lt, hf]
  refine ⟨_, hform, by simp, ?_, ?_, ?_, ?_⟩
  · rcases hinv with ⟨h0, h2⟩ | ⟨j, -, -, -, hne2, hhead, -, -, -⟩
    · rw [h2, h0]
      simp
    · rw [List.head?_append_of_ne_nil _ hne2]
      exact hhead
  · rw [List.getLast?_concat]
    simp
  · rcases hinv with ⟨h0, h2⟩ | ⟨j, -, -, hcur, -, -, hlast, hchain, -⟩
    · rw [h2]
      simp
    · apply List.Chain'.append hchain (List.chain'_singleton _)
      intro x hx y hy
      simp only [List.head?_cons, Option.mem_def, Option.some.injEq] at hy
      subst hy
      rw [Option.mem_def] at hx
      have hx' : st.2.getLast?.map SceneAnalysis.stop = some x.stop := by
        rw [hx]; rfl
      rw [hlast] at hx'
      simp only [Option.some.injEq] at hx'
      simp [← hx']
  · intro s hs
    rcases List.mem_append.mp hs with hmem | hmem
    · rcases hinv with ⟨-, h2⟩ | ⟨j, -, -, -, -, -, -, -, hall⟩
      · rw [h2] at hmem
        simp at hmem
      · exact hall s hmem
    · simp only [List.mem_singleton] at hmem
      subst hmem
      exact hcur_lt

theorem analyzeScenes_partitions_out :
    (([(default : Frame)] : List Frame) ≠ [] ∧ (0 : ℚ) < 1) ∧
      ∃ l, analyzeScenes [(default : Frame)] 1 = some l ∧
        ScenesPartition l 1 :=
  ⟨⟨by simp, by norm_num⟩,
    analyzeScenes_partitions [default] 1 (by simp) (by norm_num)⟩

end VideoEngine

namespace VideoEngine

/-- Well-formed byte data bound for a color entry, plus the positive
count that every histogram entry carries. -/
def ColorOk (c : Color) : Prop :=
  0 ≤ c.r ∧ c.r ≤ 224 ∧ 0 ≤ c.g ∧ c.g ≤ 224 ∧ 0 ≤ c.b ∧ c.b ≤ 224 ∧
    1 ≤ c.count

lemma mem_firstOccur_aux {α : Type} [DecidableEq α] {x : α} :
    ∀ (l acc : List α),
      x ∈ l.foldl (fun acc k => if k ∈ acc then acc else acc ++ [k]) acc →
      x ∈ acc ∨ x ∈ l := by
  intro l
  induction l with
  | nil => intro acc h; exact Or.inl h
  | cons b bs ih =>
      intro acc h
      simp only [List.foldl_cons] at h
      rcases ih _ h with h' | h'
      · by_cases hb : b ∈ acc
        · rw [if_pos hb] at h'; exact Or.inl h'
        · rw [if_neg hb] at h'
          rcases List.mem_append.mp h' with h'' | h''
          · exact Or.inl h''
          · simp at h''; subst h''; exact Or.inr (List.mem_cons_self _ _)
      · exact Or.inr (List.mem_cons_of_mem _ h')

lemma mem_firstOccur {α : Type} [DecidableEq α] {x : α} {l : List α}
    (h : x ∈ firstOccur l) : x ∈ l := by
  rcases mem_firstOccur_aux l [] h with h' | h'
  · simp at h'
  · exact h'

lemma quantize_le (v : ℕ) (h : v ≤ 255) : quantize v ≤ 224 := by
  unfold quantize
  have : v / 32 ≤ 7 := by omega
  omega

lemma getD_le_255 {f : Frame} (hb : ∀ v ∈ f.data, v ≤ 255) (i : ℕ) :
    f.data.getD i 0 ≤ 255 := by
  by_cases h : i < f.data.length
  · rw [List.getD_eq_getElem _ _ h]
    exact hb _ (List.getElem_mem h)
  · rw [List.getD_eq_default _ _ (by omega)]
    omega

lemma colorTally_ok {f : Frame} (hb : ∀ v ∈ f.data, v ≤ 255) :
    ∀ c ∈ colorTally f, ColorOk c := by
  intro c hc
  unfold colorTally at hc
  rcases List.mem_map.mp hc with ⟨k, hk, rfl⟩
  have hkmem : k ∈ sampledKeys f := mem_firstOccur hk
  rcases List.mem_map.mp hkmem with ⟨i, _, hkey⟩
  have h1 := quantize_le _ (getD_le_255 hb i)
  have h2 := quantize_le _ (getD_le_255 hb (i + 1))
  have h3 := quantize_le _ (getD_le_255 hb (i + 2))
  refine ⟨?_, ?_, ?_, ?_, ?_, ?_, ?_⟩
  · simp [← hkey]
  · simp only [← hkey]
    exact_mod_cast h1
  · simp [← hkey]
  · simp only [← hkey]
    exact_mod_cast h2
  · simp [← hkey]
  · simp only [← hkey]
    exact_mod_cast h3
  · exact List.count_pos_iff_mem.mpr hkmem

lemma mem_insertByCount {x c : Color} :
    ∀ {l : List Color}, x ∈ insertByCount c l → x = c ∨ x ∈ l := by
  intro l
  induction l with
  | nil =>
      intro h
      simp only [insertByCount, List.mem_singleton] at h
      exact Or.inl h
  | cons y ys ih =>
      intro h
      unfold insertByCount at h
      by_cases hcmp : c.count < y.count
      · rw [if_pos hcmp] at h
        rcases List.mem_cons.mp h with h' | h'
        · exact Or.inr (h' ▸ List.mem_cons_self _ _)
        · rcases ih h' with h'' | h''
          · exact Or.inl h''
          · exact Or.inr (List.mem_cons_of_mem _ h'')
      · rw [if_neg hcmp] at h
        rcases List.mem_cons.mp h with h' | h'
        · exact Or.inl h'
        · exact Or.inr h'

lemma mem_sortByCountDesc {x : Color} :
    ∀ {l : List Color}, x ∈ sortByCountDesc l → x ∈ l := by
  intro l
  induction l with
  | nil => intro h; simp [sortByCountDesc] at h
  | cons y ys ih =>
      intro h
      unfold sortByCountDesc at h
      rcases mem_insertByCount h with h' | h'
      · exact h' ▸ List.mem_cons_self _ _
      · exact List.mem_cons_of_mem _ (ih h')

lemma extractDominantColors_ok {f : Frame} (hb : ∀ v ∈ f.data, v ≤ 255)
    (count : ℕ) : ∀ c ∈ extractDominantColors f count, ColorOk c := by
  intro c hc
  unfold extractDominantColors at hc
  exact colorTally_ok hb c (mem_sortByCountDesc (List.take_subset _ _ hc))

lemma mem_enumFrom_snd {α : Type} {p : ℕ × α} :
    ∀ (l : List α) (n : ℕ), p ∈ l.enumFrom n → p.2 ∈ l := by
  intro l
  induction l with
  | nil => intro n h; simp at h
  | cons x xs ih =>
      intro n h
      rw [List.enumFrom_cons] at h
      rcases List.mem_cons.mp h with h' | h'
      · rw [h']
        exact List.mem_cons_self _ _
      · exact List.mem_cons_of_mem _ (ih _ h')

lemma mem_enum_snd {α : Type} {p : ℕ × α} {l : List α}
    (h : p ∈ l.enum) : p.2 ∈ l :=
  mem_enumFrom_snd l 0 h

lemma assignFold_sub (nearest : Color → List Color → ℕ)
    (cents : List Color) (S : List Color) :
    ∀ (l : List Color) (clusters : List (List Color)),
      (∀ c ∈ l, c ∈ S) →
      (∀ cl ∈ clusters, ∀ x ∈ cl, x ∈ S) →
      ∀ cl ∈ l.foldl
        (fun clusters color =>
          clusters.set (nearest color cents)
            (clusters.getD (nearest color cents) [] ++ [color]))
        clusters,
        ∀ x ∈ cl, x ∈ S := by
  intro l
  induction l with
  | nil => intro clusters _ hc; exact hc
  | cons c cs ih =>
      intro clusters hl hc
      simp only [List.foldl_cons]
      apply ih _ (fun c' hc' => hl c' (List.mem_cons_of_mem _ hc'))
      intro cl hcl x hx
      rcases List.mem_or_eq_of_mem_set hcl with hcl' | hcl'
      · exact hc cl hcl' x hx
      · subst hcl'
        rcases List.mem_append.mp hx with hx' | hx'
        · by_cases hlen : nearest c cents < clusters.length
          · rw [List.getD_eq_getElem _ _ hlen] at hx'
            exact hc _ (List.getElem_mem hlen) x hx'
          · rw [List.getD_eq_default _ _ (by omega)] at hx'
            simp at hx'
        · simp only [List.mem_singleton] at hx'
          subst hx'
          exact hl x (List.mem_cons_self _ _)

lemma assignClustersWith_sub (nearest : Color → List Color → ℕ)
    (colors cents : List Color) (k : ℕ) :
    ∀ cl ∈ assignClustersWith nearest colors cents k, ∀ x ∈ cl, x ∈ colors := by
  apply assignFold_sub nearest cents colors colors (List.replicate k [])
    (fun c hc => hc)
  intro cl hcl x hx
  rw [List.eq_of_mem_replicate hcl] at hx
  simp at hx

lemma updateCentroid_ok {cluster : List Color} {old : Color}
    (hcl : ∀ x ∈ cluster, ColorOk x) (hold : ColorOk old) :
    ColorOk (updateCentroid cluster old) := by
  unfold updateCentroid
  by_cases hne : cluster.length = 0
  · rw [if_pos hne]
    exact hold
  · rw [if_neg hne]
    have hclne : cluster ≠ [] := by
      intro h
      rw [h] at hne
      simp at hne
    have hwpos : (0 : ℚ) < (cluster.map (fun c => (c.count : ℚ))).sum := by
      apply List.sum_pos
      · intro x hx
        rcases List.mem_map.mp hx with ⟨c, hcmem, rfl⟩
        have := (hcl c hcmem).2.2.2.2.2.2
        exact_mod_cast by omega
      · simp [hclne]
    have hmean : ∀ comp : Color → ℤ,
        (∀ c ∈ cluster, 0 ≤ comp c ∧ comp c ≤ 224) →
        0 ≤ jsRound ((cluster.map (fun c => ((comp c : ℤ) : ℚ) * c.count)).sum
            / (cluster.map (fun c => (c.count : ℚ))).sum) ∧
          jsRound ((cluster.map (fun c => ((comp c : ℤ) : ℚ) * c.count)).sum
            / (cluster.map (fun c => (c.count : ℚ))).sum) ≤ 224 := by
      intro comp hcomp
      have hnum0 : 0 ≤ (cluster.map (fun c => ((comp c : ℤ) : ℚ) * c.count)).sum := by
        apply List.sum_nonneg
        intro x hx
        rcases List.mem_map.mp hx with ⟨c, hcmem, rfl⟩
        have h1 := (hcomp c hcmem).1
        have h1' : (0 : ℚ) ≤ ((comp c : ℤ) : ℚ) := by exact_mod_cast h1
        positivity
      have hnum224 : (cluster.map (fun c => ((comp c : ℤ) : ℚ) * c.count)).sum
          ≤ 224 * (cluster.map (fun c => (c.count : ℚ))).sum := by
        rw [← List.sum_map_mul_left]
        apply List.sum_le_sum
        intro c hcmem
        have h2 := (hcomp c hcmem).2
        have h2' : ((comp c : ℤ) : ℚ) ≤ 224 := by exact_mod_cast h2
        have : (0 : ℚ) ≤ (c.count : ℚ) := by positivity
        nlinarith
      have hq0 : 0 ≤ (cluster.map (fun c => ((comp c : ℤ) : ℚ) * c.count)).sum
          / (cluster.map (fun c => (c.count : ℚ))).sum := by positivity
      have hq224 : (cluster.map (fun c => ((comp c : ℤ) : ℚ) * c.count)).sum
          / (cluster.map (fun c => (c.count : ℚ))).sum ≤ 224 := by
        rw [div_le_iff₀ hwpos]
        linarith
      constructor
      · rw [jsRound, Int.le_floor]
        push_cast
        linarith
      · have : jsRound ((cluster.map (fun c => ((comp c : ℤ) : ℚ) * c.count)).sum
            / (cluster.map (fun c => (c.count : ℚ))).sum) < 225 := by
          rw [jsRound, Int.floor_lt]
          push_cast
          linarith
        omega
    have hr := hmean Color.r (fun c hc => ⟨(hcl c hc).1, (hcl c hc).2.1⟩)
    have hg := hmean Color.g (fun c hc => ⟨(hcl c hc).2.2.1, (hcl c hc).2.2.2.1⟩)
    have hb := hmean Color.b
      (fun c hc => ⟨(hcl c hc).2.2.2.2.1, (hcl c hc).2.2.2.2.2.1⟩)
    refine ⟨hr.1, hr.2, hg.1, hg.2, hb.1, hb.2, ?_⟩
    rcases List.exists_mem_of_ne_nil cluster hclne with ⟨c, hcmem⟩
    calc 1 ≤ c.count := (hcl c hcmem).2.2.2.2.2.2
      _ ≤ (cluster.map Color.count).sum :=
        List.single_le_sum (fun x _ => Nat.zero_le x) _
          (List.mem_map.mpr ⟨c, hcmem, rfl⟩)

lemma kmeansStepWith_ok (nearest : Color → List Color → ℕ)
    {colors : List Color} (k : ℕ) (hcolors : ∀ c ∈ colors, ColorOk c)
    {cents : List Color} (hcents : ∀ c ∈ cents, ColorOk c) :
    ∀ c ∈ kmeansStepWith nearest colors k cents, ColorOk c := by
  intro c hc
  unfold kmeansStepWith at hc
  rcases List.mem_map.mp hc with ⟨p, hp, rfl⟩
  apply updateCentroid_ok
  · intro x hx
    by_cases hlen : p.1 < (assignClustersWith nearest colors cents k).length
    · rw [List.getD_eq_getElem _ _ hlen] at hx
      exact assignClustersWith_sub nearest colors cents k _
        (List.getElem_mem hlen) x hx |> hcolors x
    · rw [List.getD_eq_default _ _ (by omega)] at hx
      simp at hx
  · exact hcents p.2 (mem_enum_snd hp)

end VideoEngine

namespace VideoEngine

lemma kmeans_iterate_ok (nearest : Color → List Color → ℕ)
    {colors : List Color} (k : ℕ) (hcolors : ∀ c ∈ colors, ColorOk c) :
    ∀ (n : ℕ) (cents : List Color), (∀ c ∈ cents, ColorOk c) →
      ∀ c ∈ (kmeansStepWith nearest colors k)^[n] cents, ColorOk c := by
  intro n
  induction n with
  | zero => intro cents hcents; exact hcents
  | succ n ih =>
      intro cents hcents
      rw [Function.iterate_succ_apply]
      exact ih _ (kmeansStepWith_ok nearest k hcolors hcents)

lemma clusterColorsWith_ok (nearest : Color → List Color → ℕ)
    {colors : List Color} (k : ℕ) (hcolors : ∀ c ∈ colors, ColorOk c) :
    ∀ c ∈ clusterColorsWith nearest colors k, ColorOk c := by
  intro c hc
  unfold clusterColorsWith at hc
  by_cases hlen : colors.length ≤ k
  · rw [if_pos hlen] at hc
    exact hcolors c hc
  · rw [if_neg hlen] at hc
    exact kmeans_iterate_ok nearest k hcolors 10 (colors.take k)
      (fun c' hc' => hcolors c' (List.take_subset _ _ hc')) c hc

/-- Claim C9: every color in `ColorAnalysis.dominantColors` has each of
its R, G and B components in `[0, 224]`: sampling quantizes channels
down to multiples of 32 (at most 224) and every k-means centroid is a
rounded count-weighted mean of such values, so 255 never appears. -/
theorem dominantColors_bounded (frames : List Frame)
    (hb : ∀ f ∈ frames, ∀ v ∈ f.data, v ≤ 255) :
    ∀ s ∈ (analyzeColor frames).dominantColors,
      ∃ c : Color, s = rgbString c ∧ 0 ≤ c.r ∧ c.r ≤ 224 ∧
        0 ≤ c.g ∧ c.g ≤ 224 ∧ 0 ≤ c.b ∧ c.b ≤ 224 := by
  intro s hs
  have hall : ∀ c ∈ frames.flatMap (fun f => extractDominantColors f 5),
      ColorOk c := by
    intro c hc
    rcases List.mem_flatMap.mp hc with ⟨f, hf, hcf⟩
    exact extractDominantColors_ok (hb f hf) 5 c hcf
  unfold analyzeColor at hs
  simp only at hs
  rcases List.mem_map.mp hs with ⟨c, hc, rfl⟩
  have hok := clusterColorsWith_ok nearestIndex 3 hall c hc
  exact ⟨c, rfl, hok.1, hok.2.1, hok.2.2.1, hok.2.2.2.1,
    hok.2.2.2.2.1, hok.2.2.2.2.2.1⟩

/-- The 1×1 solid-red frame (`rgba(255, 0, 0, 255)`). -/
def redFrame : Frame := ⟨1, 1, [255, 0, 0, 255]⟩

theorem dominantColors_bounded_out :
    (∀ f ∈ [redFrame], ∀ v ∈ f.data, v ≤ 255) ∧
      ∀ s ∈ (analyzeColor [redFrame]).dominantColors,
        ∃ c : Color, s = rgbString c ∧ 0 ≤ c.r ∧ c.r ≤ 224 ∧
          0 ≤ c.g ∧ c.g ≤ 224 ∧ 0 ≤ c.b ∧ c.b ≤ 224 :=
  ⟨by decide, dominantColors_bounded [redFrame] (by decide)⟩

end VideoEngine

namespace VideoEngine

lemma colorDistSq_nonneg (c1 c2 : Color) : 0 ≤ colorDistSq c1 c2 := by
  unfold colorDistSq
  positivity

lemma colorDistance_eq_sqrt (c1 c2 : Color) :
    colorDistance c1 c2 = Real.sqrt ((colorDistSq c1 c2 : ℤ) : ℝ) := by
  unfold colorDistance colorDistSq
  congr 1
  push_cast
  ring

lemma nearestScan_fst_eq (color : Color) (cents : List Color) :
    (nearestScan color cents).1 = (nearestScanSq color cents).1 := by
  unfold nearestScan nearestScanSq
  suffices h : ∀ (ps : List (ℕ × Color)) (i : ℕ) (a : Option ℤ),
      (∀ z ∈ a, 0 ≤ z) →
      (ps.foldl
        (fun acc p =>
          match acc.2 with
          | none => (p.1, some (colorDistance color p.2))
          | some best =>
              if colorDistance color p.2 < best then
                (p.1, some (colorDistance color p.2))
              else acc)
        (i, a.map (fun z => Real.sqrt ((z : ℤ) : ℝ)))).1
      = (ps.foldl
        (fun acc p =>
          match acc.2 with
          | none => (p.1, some (colorDistSq color p.2))
          | some best =>
              if colorDistSq color p.2 < best then
                (p.1, some (colorDistSq color p.2))
              else acc)
        (i, a)).1 by
    have := h cents.enum 0 none (by intro z hz; simp at hz)
    simpa using this
  intro ps
  induction ps with
  | nil =>
      intro i a _
      simp
  | cons p ps ih =>
      intro i a ha
      simp only [List.foldl_cons]
      cases a with
      | none =>
          have hstep : ∀ w : Option ℝ, w = none →
              (match w with
                | none => (p.1, some (colorDistance color p.2))
                | some best =>
                    if colorDistance color p.2 < best then
                      (p.1, some (colorDistance color p.2))
                    else (i, w)) = (p.1, some (colorDistance color p.2)) := by
            intro w hw
            subst hw
            rfl
          have h1 := ih p.1 (some (colorDistSq color p.2))
            (by intro z hz; simp at hz; subst hz; exact colorDistSq_nonneg _ _)
          simp only [Option.map_none', Option.map_some'] at h1 ⊢
          rw [← colorDistance_eq_sqrt] at h1
          exact h1
      | some z =>
          have hz : 0 ≤ z := ha z rfl
          simp only [Option.map_some']
          by_cases hlt : colorDistSq color p.2 < z
          · have hltR : colorDistance color p.2
                < Real.sqrt ((z : ℤ) : ℝ) := by
              rw [colorDistance_eq_sqrt]
              apply Real.sqrt_lt_sqrt
              · exact_mod_cast colorDistSq_nonneg color p.2
              · exact_mod_cast hlt
            simp only [if_pos hltR, if_pos hlt]
            have h1 := ih p.1 (some (colorDistSq color p.2))
              (by intro z' hz'; simp at hz'; subst hz'; exact colorDistSq_nonneg _ _)
            simp only [Option.map_some'] at h1
            rw [← colorDistance_eq_sqrt] at h1
            exact h1
          · have hltR : ¬ colorDistance color p.2
                < Real.sqrt ((z : ℤ) : ℝ) := by
              rw [colorDistance_eq_sqrt]
              intro hcon
              apply hlt
              have := (Real.sqrt_lt_sqrt_iff
                (by exact_mod_cast colorDistSq_nonneg color p.2)).mp hcon
              exact_mod_cast this
            simp only [if_neg hltR, if_neg hlt]
            have h1 := ih i (some z) (by intro z' hz'; simp at hz'; subst hz'; exact hz)
            simp only [Option.map_some'] at h1
            exact h1

lemma nearestIndex_eq_sq : nearestIndex = nearestIndexSq := by
  funext color cents
  unfold nearestIndex nearestIndexSq
  exact nearestScan_fst_eq color cents

lemma clusterColors_eq_sq (colors : List Color) (k : ℕ) :
    clusterColors colors k = clusterColorsSq colors k := by
  unfold clusterColors clusterColorsSq
  rw [nearestIndex_eq_sq]

end VideoEngine

namespace VideoEngine

/-- The quantized solid-red histogram entry. -/
def red224 : Color := ⟨224, 0, 0, 1⟩

/-- The centroid after one k-means update over five solid-red samples. -/
def red224c5 : Color := ⟨224, 0, 0, 5⟩

lemma extract_red : (List.replicate 5 redFrame).flatMap
    (fun f => extractDominantColors f 5) = List.replicate 5 red224 := by
  decide

lemma assign_red (cents : List Color)
    (h : nearestIndexSq red224 cents = 0) :
    assignClustersWith nearestIndexSq (List.replicate 5 red224) cents 3
      = [List.replicate 5 red224, [], []] := by
  unfold assignClustersWith
  simp only [List.replicate, List.foldl_cons, List.foldl_nil, h]
  rfl

lemma updateCentroid_red (old : Color) :
    updateCentroid (List.replicate 5 red224) old = red224c5 := by
  unfold updateCentroid
  rw [if_neg (by decide)]
  have hsum : ((List.replicate 5 red224).map
      (fun c => (c.count : ℚ))).sum = 5 := by
    simp [red224]
    norm_num
  have hr : ((List.replicate 5 red224).map
      (fun c => (c.r : ℚ) * c.count)).sum = 1120 := by
    simp [red224]
    norm_num
  have hg : ((List.replicate 5 red224).map
      (fun c => (c.g : ℚ) * c.count)).sum = 0 := by
    simp [red224]
  have hb : ((List.replicate 5 red224).map
      (fun c => (c.b : ℚ) * c.count)).sum = 0 := by
    simp [red224]
  rw [hsum, hr, hg, hb]
  have h224 : jsRound ((1120 : ℚ) / 5) = 224 := by
    rw [jsRound]
    norm_num
  have h0 : jsRound ((0 : ℚ) / 5) = 0 := by
    rw [jsRound]
    norm_num
  rw [h224, h0]
  have hcnt : ((List.replicate 5 red224).map Color.count).sum = 5 := by decide
  rw [hcnt]
  rfl

end VideoEngine

namespace VideoEngine

lemma kstep_red (cents : List Color) (hn : nearestIndexSq red224 cents = 0)
    (a b c : Color) (hc : cents = [a, b, c]) :
    kmeansStepWith nearestIndexSq (List.replicate 5 red224) 3 cents
      = [red224c5, b, c] := by
  unfold kmeansStepWith
  rw [assign_red cents hn, hc]
  show [updateCentroid (List.replicate 5 red224) a,
        updateCentroid [] b, updateCentroid [] c] = _
  rw [updateCentroid_red]
  rfl

lemma kstep_red_first :
    kmeansStepWith nearestIndexSq (List.replicate 5 red224) 3
      [red224, red224, red224] = [red224c5, red224, red224] :=
  kstep_red _ (by decide) _ _ _ rfl

lemma kstep_red_fixed :
    kmeansStepWith nearestIndexSq (List.replicate 5 red224) 3
      [red224c5, red224, red224] = [red224c5, red224, red224] :=
  kstep_red _ (by decide) _ _ _ rfl

lemma clusterColorsSq_red :
    clusterColorsSq (List.replicate 5 red224) 3
      = [red224c5, red224, red224] := by
  unfold clusterColorsSq clusterColorsWith
  rw [if_neg (by decide)]
  have htake : (List.replicate 5 red224).take 3 = [red224, red224, red224] := by
    decide
  rw [htake, show (10 : ℕ) = 9 + 1 from rfl, Function.iterate_succ_apply,
    kstep_red_first, Function.iterate_fixed kstep_red_fixed]

lemma dominant_red :
    (analyzeColor (List.replicate 5 redFrame)).dominantColors
      = ["rgb(224,0,0)", "rgb(224,0,0)", "rgb(224,0,0)"] := by
  show (clusterColors
      ((List.replicate 5 redFrame).flatMap fun f => extractDominantColors f 5)
      3).map rgbString = _
  rw [clusterColors_eq_sq, extract_red, clusterColorsSq_red]
  decide

end VideoEngine

namespace VideoEngine

lemma diff_red : computeFrameDifference redFrame redFrame = 0 := by
  unfold computeFrameDifference pixelStarts pixelDiff
  simp [redFrame, List.range_succ]

lemma motionValues_red :
    motionValues (List.replicate 5 redFrame) = [0, 0, 0, 0] := by
  unfold motionValues motionIdxs
  rw [show ((List.range ((List.replicate 5 redFrame).length - 1)).map (· + 1))
      = [1, 2, 3, 4] from rfl]
  simp only [List.map_cons, List.map_nil]
  rw [show (List.replicate 5 redFrame).getD 0 default = redFrame from rfl,
    show (List.replicate 5 redFrame).getD 1 default = redFrame from rfl,
    show (List.replicate 5 redFrame).getD 2 default = redFrame from rfl,
    show (List.replicate 5 redFrame).getD 3 default = redFrame from rfl,
    show (List.replicate 5 redFrame).getD 4 default = redFrame from rfl]
  norm_num [diff_red]

lemma motion_red_intensity :
    (analyzeMotion (List.replicate 5 redFrame)).intensity = 0 := by
  unfold analyzeMotion
  rw [if_neg (by decide)]
  show (motionValues (List.replicate 5 redFrame)).sum
      / (((List.replicate 5 redFrame).length - 1 : ℕ) : ℝ) = 0
  rw [motionValues_red]
  norm_num

lemma sceneStep_red (fi : ℚ) (st : ℚ × List SceneAnalysis) (i : ℕ)
    (h1 : 1 ≤ i) (h4 : i ≤ 4) :
    sceneStep (List.replicate 5 redFrame) fi st i = st := by
  unfold sceneStep
  have hga : (List.replicate 5 redFrame).getD (i - 1) default = redFrame := by
    interval_cases i <;> rfl
  have hgb : (List.replicate 5 redFrame).getD i default = redFrame := by
    interval_cases i <;> rfl
  rw [hga, hgb, diff_red, if_neg (by norm_num)]

lemma sceneFold_red (fi : ℚ) :
    sceneFold (List.replicate 5 redFrame) fi 4 = (0, []) := by
  unfold sceneFold
  rw [show List.range' 1 4 = [1, 2, 3, 4] from rfl]
  simp only [List.foldl_cons, List.foldl_nil]
  rw [sceneStep_red fi (0, []) 1 (by norm_num) (by norm_num),
    sceneStep_red fi (0, []) 2 (by norm_num) (by norm_num),
    sceneStep_red fi (0, []) 3 (by norm_num) (by norm_num),
    sceneStep_red fi (0, []) 4 (by norm_num) (by norm_num)]

lemma brightness_red : computeFrameBrightness redFrame = 299/1000 := by
  unfold computeFrameBrightness pixelStarts
  simp [redFrame, List.range_succ]

lemma classify_red : classifyScene redFrame = (SceneType.indoor, 3/5) := by
  unfold classifyScene
  rw [brightness_red]
  rw [if_neg (by intro hcon; have := hcon.1; norm_num at this)]
  rw [if_pos (Or.inl (by norm_num))]

lemma scenes_red (duration : ℚ) (hdur : 0 < duration) :
    analyzeScenes (List.replicate 5 redFrame) duration
      = some [⟨0, duration, SceneType.indoor, 3/5⟩] := by
  unfold analyzeScenes
  rw [show (List.replicate 5 redFrame).length - 1 = 4 from rfl]
  rw [sceneFold_red]
  rw [if_pos hdur]
  rw [show (List.replicate 5 redFrame).getLast? = some redFrame from rfl]
  show some (([] : List SceneAnalysis) ++
      [SceneAnalysis.mk 0 duration (classifyScene redFrame).1
        (classifyScene redFrame).2]) =
    some [SceneAnalysis.mk 0 duration SceneType.indoor (3/5)]
  rw [classify_red]
  rfl

end VideoEngine

namespace VideoEngine

/-- Claim C8 counterexample: on 5 identical 1×1 solid-red frames the
dominant palette contains `rgb(224,0,0)` — the 32-level quantization
floors the full-intensity 255 down to 224 — so the claimed
`rgb(255,0,0)` entries do not appear. -/
theorem red_frames_claim_cex :
    ("rgb(224,0,0)" ∈ (analyzeColor (List.replicate 5 redFrame)).dominantColors)
      ∧ ("rgb(224,0,0)" : String) ≠ "rgb(255,0,0)" := by
  constructor
  · rw [dominant_red]
    simp
  · decide

/-- Claim C8 (amended): for 5 identical 1×1 solid-red frames and any
positive duration, motion intensity is 0 and the scene list is the
single scene `[0, duration]` (classified indoor, confidence 0.6) as
claimed, but every dominant color is `rgb(224,0,0)` — not
`rgb(255,0,0)` — because per-frame sampling quantizes each channel down
to a multiple of 32 before clustering. -/
theorem red_frames_analysis (duration : ℚ) (hdur : 0 < duration) :
    (analyzeMotion (List.replicate 5 redFrame)).intensity = 0 ∧
      (analyzeColor (List.replicate 5 redFrame)).dominantColors
        = ["rgb(224,0,0)", "rgb(224,0,0)", "rgb(224,0,0)"] ∧
      analyzeScenes (List.replicate 5 redFrame) duration
        = some [⟨0, duration, SceneType.indoor, 3/5⟩] :=
  ⟨motion_red_intensity, dominant_red, scenes_red duration hdur⟩

theorem red_frames_analysis_out :
    (0 : ℚ) < 1 ∧
      ((analyzeMotion (List.replicate 5 redFrame)).intensity = 0 ∧
        (analyzeColor (List.replicate 5 redFrame)).dominantColors
          = ["rgb(224,0,0)", "rgb(224,0,0)", "rgb(224,0,0)"] ∧
        analyzeScenes (List.replicate 5 redFrame) 1
          = some [⟨0, 1, SceneType.indoor, 3/5⟩]) :=
  ⟨by norm_num, red_frames_analysis 1 (by norm_num)⟩

end VideoEngine
